import Mathlib

/-!
Verification of the coverbee instrumentation engine and verifier-log parser.

The Go sources (`instrumentation.go`, `pkg/verifierlog/verifierlog.go`) are
shallowly embedded below: Go strings are modelled as `List Char`, Go's `int`/
`int64` as `Int`, `uint64` as `Nat`, slices as lists, and Go run-time panics
(nil dereference, slice out of range, failed type assertion) as the `.error`
branch of `Except String`.  Machine-width overflow of `strconv.Atoi` /
`ParseInt` (which only triggers beyond 2^63) is outside every input considered
here and is not modelled; all other error behaviour of the `strconv`/`hex`
helpers (including Go's rejection of `0x` prefixes at explicit base 16 and of
odd-length hex strings) is modelled exactly.
-/

namespace Coverbee

/-- Go strings, modelled as lists of characters. -/
abbrev Str := List Char

/-- Embed a Lean string literal as a model string. -/
def strOf (s : String) : Str := s.data

/-- Models `strings.HasPrefix(s, p)`. -/
def hasPre (s p : Str) : Bool := p.isPrefixOf s

/-- Models `strings.TrimPrefix(s, p)`. -/
def trimPre (s p : Str) : Str := if hasPre s p then s.drop p.length else s

/-- Models `strings.HasSuffix(s, p)`. -/
def hasSuf (s p : Str) : Bool := p.isSuffixOf s

/-- Models `strings.TrimSuffix(s, p)`. -/
def trimSuf (s p : Str) : Str := if hasSuf s p then s.take (s.length - p.length) else s

/-- Models `strings.TrimSpace` (the verifier log only contains ASCII spaces,
tabs and carriage returns, all covered by `Char.isWhitespace`). -/
def trimSpace (s : Str) : Str :=
  ((s.dropWhile Char.isWhitespace).reverse.dropWhile Char.isWhitespace).reverse

/-- Models `strings.Trim(s, cutset)`: trim every character of `cutset` from
both ends. -/
def goTrim (s cutset : Str) : Str :=
  ((s.dropWhile (cutset.contains ·)).reverse.dropWhile (cutset.contains ·)).reverse

/-- Models `strings.Index(s, c)` for a single-character separator, as an
`Option` (`none` stands for Go's `-1`). -/
def idxOf (s : Str) (c : Char) : Option Nat := s.findIdx? (· == c)

/-- Models `strings.Split(s, sep)` for a single-character separator. -/
def goSplit (s : Str) (c : Char) : List Str := s.splitOn c

def isDigit (c : Char) : Bool := c.isDigit

/-- Hexadecimal digit value as accepted by `strconv` at base 16. -/
def hexVal (c : Char) : Option Nat :=
  if c.isDigit then some (c.toNat - 48)
  else if 'a' ≤ c && c ≤ 'f' then some (10 + (c.toNat - 97))
  else if 'A' ≤ c && c ≤ 'F' then some (10 + (c.toNat - 65))
  else none

def digitsToNat (s : Str) : Nat := s.foldl (fun a c => a * 10 + (c.toNat - '0'.toNat)) 0

def hexToNat (s : Str) : Nat := s.foldl (fun a c => a * 16 + ((hexVal c).getD 0)) 0

/-- Models `strconv.ParseUint(s, 10, 64)` up to overflow: every digit must be
decimal and the string non-empty, no sign allowed. -/
def parseUint10 (s : Str) : Option Nat :=
  if s ≠ [] && s.all isDigit then some (digitsToNat s) else none

/-- Models `strconv.Atoi` / `strconv.ParseInt(s, 10, 64)` up to overflow:
optional single sign followed by a non-empty run of decimal digits. -/
def parseInt10 (s : Str) : Option Int :=
  match s with
  | '+' :: rest => (parseUint10 rest).map Int.ofNat
  | '-' :: rest => (parseUint10 rest).map (fun n => -(n : Int))
  | _ => (parseUint10 s).map Int.ofNat

/-- Models `strconv.ParseInt(s, 16, 64)` up to overflow.  With an explicit
base Go accepts no `0x` prefix, so a leading `0x` makes the parse fail. -/
def parseInt16 (s : Str) : Option Int :=
  let core : Str → Option Nat := fun t =>
    if t ≠ [] && t.all (fun c => (hexVal c).isSome) then some (hexToNat t) else none
  match s with
  | '+' :: rest => (core rest).map Int.ofNat
  | '-' :: rest => (core rest).map (fun n => -(n : Int))
  | _ => (core s).map Int.ofNat

/-- Models `hex.DecodeString`: decode pairs of hex digits into bytes.  On a
malformed or odd-length input Go returns the bytes decoded so far together
with an error; every call site of the source discards the error, so the model
returns just the decoded prefix. -/
def hexDecode : Str → List Nat
  | a :: b :: rest =>
    match hexVal a, hexVal b with
    | some x, some y => (16 * x + y) :: hexDecode rest
    | _, _ => []
  | _ => []

/-- Go's conversion `int64(u)` of a `uint64` value (two's-complement wrap). -/
def intOfUint64 (n : Nat) : Int := if n < 2 ^ 63 then (n : Int) else (n : Int) - 2 ^ 64

def maxInt64 : Int := 2 ^ 63 - 1
def minInt64 : Int := -(2 ^ 63)
def maxInt32 : Int := 2 ^ 31 - 1
def minInt32 : Int := -(2 ^ 31)
def maxUint64 : Nat := 2 ^ 64 - 1
def maxUint32 : Nat := 2 ^ 32 - 1

/-! ## Data model of `pkg/verifierlog` -/

/-- Models `verifierlog.Liveness` (`LivenessNone/Read/Written/Done`). -/
inductive Liveness where
  | none | read | written | done
deriving DecidableEq, Repr, Inhabited

/-- Models `verifierlog.RegType`: a Go `int` holding a base type in the low
byte plus flag bits; the numeric encoding of the source is kept. -/
abbrev RegType := Nat

def RegTypeNotInit : RegType := 0
def RegTypeScalarValue : RegType := 1
def RegTypePtrToCtx : RegType := 2
def RegTypeConstPtrToMap : RegType := 3
def RegTypeMapValue : RegType := 4
def RegTypePtrToStack : RegType := 5
def RegTypePtrToPacket : RegType := 6
def RegTypePtrToPacketMeta : RegType := 7
def RegTypePtrToPacketEnd : RegType := 8
def RegTypePtrToFlowKeys : RegType := 9
def RegTypePtrToSock : RegType := 10
def RegTypePtrToSockCommon : RegType := 11
def RegTypePtrToTCPSock : RegType := 12
def RegTypePtrToTPBuf : RegType := 13
def RegTypePtrToXDPSock : RegType := 14
def RegTypePtrToBTFID : RegType := 15
def RegTypePtrToMem : RegType := 16
def RegTypePtrToBuf : RegType := 17
def RegTypePtrToFunc : RegType := 18
def RegTypePtrToMapKey : RegType := 19

def RegTypeBaseType : RegType := 0xFF
def RegTypePtrMaybeNull : RegType := 1 <<< 9
def RegTypeMemReadonly : RegType := 1 <<< 10
def RegTypeMemAlloc : RegType := 1 <<< 11
def RegTypeMemUser : RegType := 1 <<< 12
def RegTypeMemPreCPU : RegType := 1 <<< 13

/-- Models the `rtToString` map; Go map lookup of an absent key yields `""`. -/
def rtToString (rt : RegType) : Str :=
  if rt = RegTypeNotInit then strOf "?"
  else if rt = RegTypeScalarValue then strOf "scalar"
  else if rt = RegTypePtrToCtx then strOf "ctx"
  else if rt = RegTypeConstPtrToMap then strOf "map_ptr"
  else if rt = RegTypePtrToMapKey then strOf "map_key"
  else if rt = RegTypeMapValue then strOf "map_value"
  else if rt = RegTypePtrToStack then strOf "fp"
  else if rt = RegTypePtrToPacket then strOf "pkt"
  else if rt = RegTypePtrToPacketMeta then strOf "pkt_meta"
  else if rt = RegTypePtrToPacketEnd then strOf "pkt_end"
  else if rt = RegTypePtrToFlowKeys then strOf "flow_keys"
  else if rt = RegTypePtrToSock then strOf "sock"
  else if rt = RegTypePtrToSockCommon then strOf "sock_common"
  else if rt = RegTypePtrToTCPSock then strOf "tcp_sock"
  else if rt = RegTypePtrToTPBuf then strOf "tp_buffer"
  else if rt = RegTypePtrToXDPSock then strOf "xdp_sock"
  else if rt = RegTypePtrToBTFID then strOf "ptr_"
  else if rt = RegTypePtrToMem then strOf "mem"
  else if rt = RegTypePtrToBuf then strOf "buf"
  else if rt = RegTypePtrToFunc then strOf "func"
  else []

/-- The `stringToRT` lexicon, listed from longest to shortest name exactly as
the source sorts it before longest-prefix matching (no two distinct names of
equal length can prefix the same string, so ties are irrelevant). -/
def stringToRTByLen : List (Str × RegType) :=
  [ (strOf "sock_common", RegTypePtrToSockCommon)
  , (strOf "map_value", RegTypeMapValue)
  , (strOf "flow_keys", RegTypePtrToFlowKeys)
  , (strOf "tp_buffer", RegTypePtrToTPBuf)
  , (strOf "xdp_sock", RegTypePtrToXDPSock)
  , (strOf "tcp_sock", RegTypePtrToTCPSock)
  , (strOf "pkt_meta", RegTypePtrToPacketMeta)
  , (strOf "map_ptr", RegTypeConstPtrToMap)
  , (strOf "map_key", RegTypePtrToMapKey)
  , (strOf "pkt_end", RegTypePtrToPacketEnd)
  , (strOf "scalar", RegTypeScalarValue)
  , (strOf "sock", RegTypePtrToSock)
  , (strOf "ptr_", RegTypePtrToBTFID)
  , (strOf "func", RegTypePtrToFunc)
  , (strOf "inv", RegTypeScalarValue)
  , (strOf "ctx", RegTypePtrToCtx)
  , (strOf "pkt", RegTypePtrToPacket)
  , (strOf "mem", RegTypePtrToMem)
  , (strOf "buf", RegTypePtrToBuf)
  , (strOf "fp", RegTypePtrToStack) ]

/-- Models `verifierlog.TNum`. -/
structure TNum where
  value : Int := 0
  mask : Int := 0
deriving DecidableEq, Repr, Inhabited

/-- Models `TNum.isConst`. -/
def TNum.isConst (t : TNum) : Bool := t.mask == 0

/-- Models `TNum.isUnknown` (`Mask == math.MaxInt64`). -/
def TNum.isUnknown (t : TNum) : Bool := t.mask == maxInt64

/-- Models `verifierlog.RegisterValue`. -/
structure RegisterValue where
  type : RegType := 0
  off : Int := 0
  id : Int := 0
  refObjID : Int := 0
  range : Int := 0
  keySize : Int := 0
  valueSize : Int := 0
  precise : Bool := false
  varOff : TNum := {}
  sMinValue : Int := 0
  sMaxValue : Int := 0
  uMinValue : Nat := 0
  uMaxValue : Nat := 0
  s32MinValue : Int := 0
  s32MaxValue : Int := 0
  u32MinValue : Nat := 0
  u32MaxValue : Nat := 0
  btfName : Str := []
deriving DecidableEq, Repr, Inhabited

/-- Models `verifierlog.RegisterState`. -/
structure RegisterState where
  register : Nat := 0
  liveness : Liveness := .none
  value : RegisterValue := {}
deriving DecidableEq, Repr, Inhabited

/-- Models `verifierlog.StackState`; `slots` is the `[8]StackSlot` byte array
(zero-initialised, i.e. eight NUL characters). -/
structure StackState where
  offset : Int := 0
  liveness : Liveness := .none
  spilledRegister : RegisterValue := {}
  slots : List Char := List.replicate 8 (Char.ofNat 0)
deriving DecidableEq, Repr, Inhabited

/-- Models `verifierlog.VerifierState`. -/
structure VerifierState where
  frameNumber : Int := 0
  registers : List RegisterState := []
  stack : List StackState := []
deriving DecidableEq, Repr, Inhabited

/-- Models the `verifierlog.Instruction` record shared by several
statements. -/
structure LogInstruction where
  instructionNumber : Int := 0
  opcode : Nat := 0
  assembly : Str := []
deriving DecidableEq, Repr, Inhabited

/-- Models the closed set of `verifierlog.VerifierStatement` variants. -/
inductive VerifierStatement where
  | unknown (log : Str)
  | errorStmt (msg : Str)
  | comment (text : Str)
  | recapState (instructionNumber : Int) (state : VerifierState)
  | instructionState (instruction : LogInstruction) (state : VerifierState)
  | instruction (instruction : LogInstruction)
  | subProgLocation (progID : Int) (startInstruction : Int)
  | propagatePrecision (register : Option Nat) (offset : Int)
  | statePruned (fromIdx : Int) (toIdx : Int)
  | branchEvaluation (fromIdx : Int) (toIdx : Int) (state : VerifierState)
  | backTrackingHeader (last : Int) (first : Int)
  | backTrackInstruction (regs : List Nat) (stack : Int) (instruction : LogInstruction)
  | backTrackingTrailer (parentMatch : Bool) (regs : List Nat) (stack : Int)
      (state : VerifierState)
  | verifierDone (processed limit maxStatesPerInst totalStates peakStates markRead : Int)
  | functionCall (callerState calleeState : VerifierState)
  | returnFunctionCall (calleeState : VerifierState) (callSite : Int)
      (callerState : VerifierState)
deriving DecidableEq, Repr, Inhabited

/-! ## Parsing of register values and verifier states -/

/-- Go's `int32(x)` conversion of an `int64` (two's-complement wrap). -/
def wrapInt32 (x : Int) : Int := (x + 2 ^ 31) % 2 ^ 32 - 2 ^ 31

/-- Go's `uint32(x)` conversion of a `uint64`. -/
def wrapUint32 (x : Nat) : Nat := x % 2 ^ 32

/-- Go's `uint8(x)` conversion of an `int` (used by `asm.Register(keyNum)`). -/
def byteOfInt (x : Int) : Nat := (x % 256).toNat

/-- Models `parseRegisterType`: drain modifier prefixes, an optional `P`, the
longest base-type name, a nullability suffix and a trailing `P`. -/
def parseRegisterType (line0 : Str) : RegType × Bool × Str :=
  let typ : RegType := 0
  let line := line0
  let (typ, line) :=
    if hasPre line (strOf "rdonly_") then
      (typ ||| RegTypeMemReadonly, trimPre line (strOf "rdonly_")) else (typ, line)
  let (typ, line) :=
    if hasPre line (strOf "alloc_") then
      (typ ||| RegTypeMemAlloc, trimPre line (strOf "alloc_")) else (typ, line)
  let (typ, line) :=
    if hasPre line (strOf "user_") then
      (typ ||| RegTypeMemUser, trimPre line (strOf "user_")) else (typ, line)
  let (typ, line) :=
    if hasPre line (strOf "per_cpu_") then
      (typ ||| RegTypeMemPreCPU, trimPre line (strOf "per_cpu_")) else (typ, line)
  let (precise, line) :=
    if hasPre line (strOf "P") then (true, trimPre line (strOf "P")) else (false, line)
  let (typ, line) :=
    match stringToRTByLen.find? (fun nameRT => hasPre line nameRT.1) with
    | some nameRT => (typ ||| nameRT.2, trimPre line nameRT.1)
    | none => (typ, line)
  let (typ, line) :=
    if hasPre line (strOf "or_null_") then
      (typ ||| RegTypePtrMaybeNull, trimPre line (strOf "or_null_")) else (typ, line)
  let (typ, line) :=
    if hasPre line (strOf "_or_null_") then
      (typ ||| RegTypePtrMaybeNull, trimPre line (strOf "_or_null_")) else (typ, line)
  let (precise, line) :=
    if hasPre line (strOf "P") then (true, trimPre line (strOf "P")) else (precise, line)
  (typ, precise, line)

/-- One `key=value` pair of the parenthesised list in `parseRegisterValue`.
The `.error` branch models the Go slice-bounds panic reachable in the
`var_off` case.  Note two source bugs carried over faithfully: the key
`umax_value`/`umin_value` spellings match no case and are dropped, and both
halves of `var_off` are assigned to `VarOff.Value` (never to `Mask`), using
base-16 `ParseInt` which rejects the `0x` prefix. -/
def applyPair (val : RegisterValue) (pair : Str) : Except String RegisterValue :=
  match idxOf pair '=' with
  | none => .ok val
  | some eq =>
    let key := pair.take eq
    let valStr := pair.drop (eq + 1)
    let intVal := (parseInt10 valStr).getD 0
    let uintVal := (parseUint10 valStr).getD 0
    if key = strOf "id" then .ok { val with id := intVal }
    else if key = strOf "ref_obj_id" then .ok { val with refObjID := intVal }
    else if key = strOf "off" then .ok { val with off := wrapInt32 intVal }
    else if key = strOf "r" then .ok { val with range := intVal }
    else if key = strOf "ks" then .ok { val with keySize := intVal }
    else if key = strOf "vs" then .ok { val with valueSize := intVal }
    else if key = strOf "imm" then .ok { val with varOff := { val.varOff with value := intVal } }
    else if key = strOf "smin" then .ok { val with sMinValue := intVal }
    else if key = strOf "smax" then .ok { val with sMaxValue := intVal }
    else if key = strOf "umin" then .ok { val with uMinValue := uintVal }
    else if key = strOf "umax" then .ok { val with uMaxValue := uintVal }
    else if key = strOf "s32_min" then .ok { val with s32MinValue := wrapInt32 intVal }
    else if key = strOf "s32_max" then .ok { val with s32MaxValue := wrapInt32 intVal }
    else if key = strOf "u32_min" then .ok { val with u32MinValue := wrapUint32 uintVal }
    else if key = strOf "u32_max" then .ok { val with u32MaxValue := wrapUint32 uintVal }
    else if key = strOf "var_off" then
      match idxOf valStr ';' with
      | none => .error "parseRegisterValue: slice bounds out of range"
      | some i =>
        if i < 1 then .error "parseRegisterValue: slice bounds out of range"
        else
          match idxOf valStr ')' with
          | none => .error "parseRegisterValue: slice bounds out of range"
          | some j =>
            if j < i + 1 then .error "parseRegisterValue: slice bounds out of range"
            else
              let hexV := (valStr.take i).drop 1
              let hexM := (valStr.take j).drop (i + 1)
              let val := { val with varOff := { val.varOff with value := (parseInt16 hexV).getD 0 } }
              let val := { val with varOff := { val.varOff with value := (parseInt16 hexM).getD 0 } }
              .ok val
    else .ok val

/-- Models `parseRegisterValue`. -/
def parseRegisterValue (line0 : Str) : Except String RegisterValue :=
  let line := trimSpace line0
  let (typ, precise, line) := parseRegisterType line
  let val : RegisterValue := { type := typ, precise := precise }
  let scalarShortcut : Option RegisterValue :=
    if typ == RegTypeScalarValue then
      (parseInt10 line).map (fun v => { val with varOff := { val.varOff with value := v } })
    else none
  match scalarShortcut with
  | some v => .ok v
  | none =>
    let line := trimSuf (trimPre line (strOf "(")) (strOf ")")
    (goSplit line ',').foldlM applyPair val

/-- Models `parseRegisterState` (the source always returns a non-nil state;
any panic comes from `parseRegisterValue`). -/
def parseRegisterState (key0 value : Str) : Except String RegisterState := do
  let (key, live) :=
    if hasSuf key0 (strOf "_r") then (trimSuf key0 (strOf "_r"), Liveness.read)
    else (key0, Liveness.none)
  let (key, live) :=
    if hasSuf key (strOf "_w") then (trimSuf key (strOf "_w"), Liveness.written)
    else (key, live)
  let (key, live) :=
    if hasSuf key (strOf "_D") then (trimSuf key (strOf "_D"), Liveness.done)
    else (key, live)
  let key := goTrim key (strOf "R")
  let keyNum := (parseInt10 key).getD 0
  let v ← parseRegisterValue value
  .ok { register := byteOfInt keyNum, liveness := live, value := v }

/-- The byte-copy loop of `parseStackState`: `Slots[i] = value[i]` for
`i < 8`, stopping at the end of `value`. -/
def writeSlots (slots v : List Char) : List Char :=
  (List.range 8).foldl
    (fun s i => if i < v.length then s.set i (v.getD i (Char.ofNat 0)) else s) slots

/-- Models `parseStackState` (total: no panic is reachable in it). -/
def parseStackState (key0 value0 : Str) : StackState :=
  let (key, live) :=
    if hasSuf key0 (strOf "_r") then (trimSuf key0 (strOf "_r"), Liveness.read)
    else (key0, Liveness.none)
  let (key, live) :=
    if hasSuf key (strOf "_w") then (trimSuf key (strOf "_w"), Liveness.written)
    else (key, live)
  let (key, live) :=
    if hasSuf key (strOf "_D") then (trimSuf key (strOf "_D"), Liveness.done)
    else (key, live)
  let key := goTrim key (strOf "fp-")
  let keyNum := (parseInt10 key).getD 0
  let (typ, precise, value) := parseRegisterType value0
  let base : StackState :=
    { offset := keyNum, liveness := live, spilledRegister := { type := typ, precise := precise } }
  if typ ≠ RegTypeNotInit then base
  else { base with slots := writeSlots base.slots value }

/-- The value-token scanner of `parseVerifierState`, walking the suffix of
the line after position `i` with the first `i` characters kept reversed in
`acc` (the source increments `i` before the first test, so position 0 is
never inspected): a space at bracket depth zero ends the token at
`(line[:i], line[i+1:])`, and the end of the string yields the whole line. -/
def scanValGo (acc : Str) (remaining : Str) (depth : Int) : Except String (Str × Str) :=
  match remaining with
  | [] => .ok (acc.reverse, [])
  | c :: rest =>
    if c == '(' then scanValGo (c :: acc) rest (depth + 1)
    else if c == ')' then scanValGo (c :: acc) rest (depth - 1)
    else if c == ' ' && depth == 0 then .ok (acc.reverse, rest)
    else scanValGo (c :: acc) rest depth

/-- The `i >= len(line)` exit of the scanner loop executes `line = line[i:]`
with `i = 1`, which panics for an empty value string. -/
def scanValue (l : Str) : Except String (Str × Str) :=
  match l with
  | [] => .error "parseVerifierState: slice bounds out of range"
  | c0 :: restL => scanValGo [c0] restL 0

theorem scanValGo_rest_le (acc remaining : Str) (depth : Int) (v r : Str)
    (h : scanValGo acc remaining depth = .ok (v, r)) : r.length ≤ remaining.length := by
  induction remaining generalizing acc depth with
  | nil =>
    rw [scanValGo] at h
    simp only [Except.ok.injEq, Prod.mk.injEq] at h
    simp [← h.2]
  | cons c rest ih =>
    rw [scanValGo] at h
    by_cases h1 : c == '('
    · rw [if_pos h1] at h
      have := ih _ _ h
      simp only [List.length_cons]
      omega
    · rw [if_neg h1] at h
      by_cases h2 : c == ')'
      · rw [if_pos h2] at h
        have := ih _ _ h
        simp only [List.length_cons]
        omega
      · rw [if_neg h2] at h
        by_cases h3 : c == ' ' && depth == 0
        · rw [if_pos h3] at h
          simp only [Except.ok.injEq, Prod.mk.injEq] at h
          rw [← h.2]
          simp only [List.length_cons]
          omega
        · rw [if_neg h3] at h
          have := ih _ _ h
          simp only [List.length_cons]
          omega

theorem scanValue_rest_lt (l : Str) (v r : Str) (h : scanValue l = .ok (v, r)) :
    r.length < l.length := by
  match l with
  | [] => rw [scanValue] at h; exact absurd h (by simp)
  | c0 :: restL =>
    rw [scanValue] at h
    have := scanValGo_rest_le _ _ _ _ _ h
    simp only [List.length_cons]
    omega

/-- The `key=value` consumption loop of `parseVerifierState`, with explicit
fuel.  Every round recurses on `rest`, a strict suffix of `line`
(`scanValue_rest_lt` applied to the part of `line` after the `=`), so
`line.length + 1` rounds never exhaust and the fuel branch is unreachable. -/
def kvLoopF (st : VerifierState) (line : Str) : Nat → Except String VerifierState
  | 0 => .error "unreachable: kvLoop fuel exhausted"
  | fuel + 1 =>
    match idxOf line '=' with
    | none => .ok st
    | some eq =>
      let key := line.take eq
      match scanValue (line.drop (eq + 1)) with
      | .error e => .error e
      | .ok (value, rest) =>
        if hasPre key (strOf "fp") then
          kvLoopF { st with stack := st.stack ++ [parseStackState key value] } rest fuel
        else
          match parseRegisterState key value with
          | .error e => .error e
          | .ok rs => kvLoopF { st with registers := st.registers ++ [rs] } rest fuel

def kvLoop (st : VerifierState) (line : Str) : Except String VerifierState :=
  kvLoopF st line (line.length + 1)

/-- Models `parseVerifierState`.  The `.error` branches model the Go panics:
`frame` without a colon slices `line[:-1]`, and an empty value token slices
past the end of the string. -/
def parseVerifierState (line0 : Str) : Except String VerifierState :=
  let line := trimSpace line0
  if hasPre line (strOf "frame") then
    let line := trimPre line (strOf "frame")
    match idxOf line ':' with
    | none => .error "parseVerifierState: slice bounds out of range"
    | some colon =>
      let fn := (parseInt10 (line.take colon)).getD 0
      kvLoop { frameNumber := fn } (trimSpace (line.drop (colon + 1)))
  else
    kvLoop {} line

/-! ## The line regexes of `verifierlog.go`

Each anchored regex of the source is implemented as a deterministic matcher.
Every greedy character-class group (`\d+`, `[0-9a-f]+`, `[^;]+`) is followed
in its regex by a character outside the class, so the maximal run is the only
candidate and no backtracking is observable; the sole optional groups
(`(?:from )?`, `(?: to (\d+))?`, `:?`, ` ?`) are tried greedily first exactly
as a leftmost-biased engine does. -/

def takeRun (p : Char → Bool) (s : Str) : Str × Str := (s.takeWhile p, s.dropWhile p)

def takeRun1 (p : Char → Bool) (s : Str) : Option (Str × Str) :=
  let r := takeRun p s
  if r.1.isEmpty then none else some r

/-- Consume a literal, returning the remainder. -/
def lit (l : String) (s : Str) : Option Str :=
  if hasPre s (strOf l) then some (s.drop (strOf l).length) else none

def isHexLower (c : Char) : Bool := c.isDigit || ('a' ≤ c && c ≤ 'f')

def isHexAny (c : Char) : Bool := (hexVal c).isSome

/-- `instructionRegex = ^(\d+): \(([0-9a-f]{2})\)([^;]+)` -/
def matchInstructionRegex (s : Str) : Option (Str × Str × Str) := do
  let (d, s) ← takeRun1 isDigit s
  let s ← lit ": (" s
  match s with
  | a :: b :: s2 =>
    if isHexLower a && isHexLower b then do
      let s3 ← lit ")" s2
      let (asmS, _) := takeRun (· != ';') s3
      if asmS.isEmpty then none else some (d, [a, b], asmS)
    else none
  | _ => none

/-- `instructionStateRegex = ^(\d+): \(([0-9a-f]{2})\)([^;]+);(.*)` -/
def matchInstructionStateRegex (s : Str) : Option (Str × Str × Str × Str) := do
  let (d, s) ← takeRun1 isDigit s
  let s ← lit ": (" s
  match s with
  | a :: b :: s2 =>
    if isHexLower a && isHexLower b then do
      let s3 ← lit ")" s2
      let (asmS, s4) := takeRun (· != ';') s3
      if asmS.isEmpty then none
      else
        match s4 with
        | ';' :: restS => some (d, [a, b], asmS, restS)
        | _ => none
    else none
  | _ => none

/-- `recapStateRegex = ^(\d+): ?(.*)` -/
def matchRecapRegex (s : Str) : Option (Str × Str) := do
  let (d, s) ← takeRun1 isDigit s
  let s ← lit ":" s
  let s := match s with | ' ' :: r => r | _ => s
  some (d, s)

def matchStatePrunedCore (s : Str) : Option (Str × Option Str) := do
  let (d1, s) ← takeRun1 isDigit s
  let withTo : Option (Str × Option Str) := do
    let s2 ← lit " to " s
    let (d2, s3) ← takeRun1 isDigit s2
    let _ ← lit ": safe" s3
    some (d1, some d2)
  match withTo with
  | some r => some r
  | none => do
    let _ ← lit ": safe" s
    some (d1, none)

/-- `statePrunedRegex = ^(?:from )?(\d+)(?: to (\d+))?: safe` -/
def matchStatePrunedRegex (s : Str) : Option (Str × Option Str) :=
  match lit "from " s with
  | some s2 => (matchStatePrunedCore s2).orElse (fun _ => matchStatePrunedCore s)
  | none => matchStatePrunedCore s

/-- `branchEvaluationRegex = ^from (\d+) to (\d+): (.*)` -/
def matchBranchEvalRegex (s : Str) : Option (Str × Str × Str) := do
  let s ← lit "from " s
  let (d1, s) ← takeRun1 isDigit s
  let s ← lit " to " s
  let (d2, s) ← takeRun1 isDigit s
  let s ← lit ": " s
  some (d1, d2, s)

/-- `backTrackInstructionRegex = ^regs=([0-9a-fA-F]+) stack=(\d+) before (.*)` -/
def matchBackTrackInstRegex (s : Str) : Option (Str × Str × Str) := do
  let s ← lit "regs=" s
  let (h, s) ← takeRun1 isHexAny s
  let s ← lit " stack=" s
  let (d, s) ← takeRun1 isDigit s
  let s ← lit " before " s
  some (h, d, s)

/-- `backTrackingHeaderRegex = ^last_idx (\d+) first_idx (\d+)` -/
def matchBackTrackHeaderRegex (s : Str) : Option (Str × Str) := do
  let s ← lit "last_idx " s
  let (d1, s) ← takeRun1 isDigit s
  let s ← lit " first_idx " s
  let (d2, _) ← takeRun1 isDigit s
  some (d1, d2)

/-- An unanchored regex matches at the leftmost possible position. -/
def searchMatch {α : Type} (f : Str → Option α) : Str → Option α
  | [] => f []
  | c :: rest =>
    match f (c :: rest) with
    | some r => some r
    | none => searchMatch f rest

/-- Body of the unanchored
`backTrackingTrailerRegex = parent (didn\x27t have|already had) regs=([0-9a-fA-F]+) stack=(\d+) marks:? ?(.*)?`;
the boolean is `match[1] == "already had"`. -/
def matchTrailerAt (s : Str) : Option (Bool × Str × Str × Str) := do
  let s ← lit "parent " s
  let (pm, s) ← (do
      let s2 ← lit "didn\x27t have" s
      some (false, s2)).orElse fun _ => do
      let s2 ← lit "already had" s
      some (true, s2)
  let s ← lit " regs=" s
  let (h, s) ← takeRun1 isHexAny s
  let s ← lit " stack=" s
  let (d, s) ← takeRun1 isDigit s
  let s ← lit " marks" s
  let s := match s with | ':' :: r => r | _ => s
  let s := match s with | ' ' :: r => r | _ => s
  some (pm, h, d, s)

/-- Body of the unanchored `loadSuccessRegex`. -/
def matchLoadSuccessAt (s : Str) : Option (Str × Str × Str × Str × Str × Str) := do
  let s ← lit "processed " s
  let (d1, s) ← takeRun1 isDigit s
  let s ← lit " insns (limit " s
  let (d2, s) ← takeRun1 isDigit s
  let s ← lit ") max_states_per_insn " s
  let (d3, s) ← takeRun1 isDigit s
  let s ← lit " total_states " s
  let (d4, s) ← takeRun1 isDigit s
  let s ← lit " peak_states " s
  let (d5, s) ← takeRun1 isDigit s
  let s ← lit " mark_read " s
  let (d6, _) ← takeRun1 isDigit s
  some (d1, d2, d3, d4, d5, d6)

/-- `subProgLocRegex = ^func#(\d+) @(\d+)` -/
def matchSubProgLocRegex (s : Str) : Option (Str × Str) := do
  let s ← lit "func#" s
  let (d1, s) ← takeRun1 isDigit s
  let s ← lit " @" s
  let (d2, _) ← takeRun1 isDigit s
  some (d1, d2)

/-- `returnFuncCallRegex = ^to caller at (\d+):` -/
def matchReturnCallerRegex (s : Str) : Option Str := do
  let s ← lit "to caller at " s
  let (d, s) ← takeRun1 isDigit s
  let _ ← lit ":" s
  some d

/-! ## Statement parsers and `ParseVerifierLog` -/

/-- Models `parseComment`. -/
def parseCommentLine (line : Str) : VerifierStatement :=
  .comment (trimPre line (strOf "; "))

/-- Models `parseSubProgLocation`; a non-matching line yields Go's `nil`,
which the caller silently drops. -/
def parseSubProgLocationLine (line : Str) : Option VerifierStatement :=
  match matchSubProgLocRegex line with
  | none => none
  | some (d1, d2) =>
    some (.subProgLocation ((parseInt10 d1).getD 0) ((parseInt10 d2).getD 0))

/-- Models `parsePropagatePrecision`. -/
def parsePropagateLine (line0 : Str) : VerifierStatement :=
  let line := trimPre line0 (strOf "propagating ")
  if hasPre line (strOf "r") then
    .propagatePrecision (some (byteOfInt ((parseInt10 (trimPre line (strOf "r"))).getD 0))) 0
  else
    .propagatePrecision none ((parseInt10 (trimPre line (strOf "fp-"))).getD 0)

/-- Models `parseBackTrackingHeader`; the source indexes the submatch slice
without a nil check, so a non-matching line (unreachable from the dispatcher)
panics. -/
def parseBackTrackingHeaderLine (line : Str) : Except String VerifierStatement :=
  match matchBackTrackHeaderRegex line with
  | none => .error "parseBackTrackingHeader: index out of range on nil match"
  | some (d1, d2) =>
    .ok (.backTrackingHeader ((parseInt10 d1).getD 0) ((parseInt10 d2).getD 0))

/-- Models `parseStatePruned` (again no nil check on the submatch slice). -/
def parseStatePrunedLine (line : Str) : Except String VerifierStatement :=
  match matchStatePrunedRegex line with
  | none => .error "parseStatePruned: index out of range on nil match"
  | some (d1, d2?) =>
    let fromIdx := (parseInt10 d1).getD 0
    match d2? with
    | some d2 => .ok (.statePruned fromIdx ((parseInt10 d2).getD 0))
    | none => .ok (.statePruned fromIdx fromIdx)

/-- Models `parseInstruction`: a non-matching line yields an `Error`
statement.  The opcode-decode error branch of the source is unreachable
because the regex guarantees two lowercase hex digits. -/
def parseInstructionLine (line : Str) : VerifierStatement :=
  match matchInstructionRegex line with
  | none => .errorStmt (strOf "instruction state: no match")
  | some (d, hh, asmS) =>
    .instruction
      { instructionNumber := (parseInt10 d).getD 0
      , opcode := (hexDecode hh).headD 0
      , assembly := asmS }

/-- Models `parseInstructionState`. -/
def parseInstructionStateLine (line : Str) : Except String VerifierStatement :=
  match matchInstructionStateRegex line with
  | none => .ok (.errorStmt (strOf "instruction state: no match"))
  | some (d, hh, asmS, stateS) =>
    match parseVerifierState stateS with
    | .error e => .error e
    | .ok st =>
      .ok (.instructionState
        { instructionNumber := (parseInt10 d).getD 0
        , opcode := (hexDecode hh).headD 0
        , assembly := asmS } st)

/-- Models `parseRecapState`. -/
def parseRecapStateLine (line : Str) : Except String VerifierStatement :=
  match matchRecapRegex line with
  | none => .ok (.errorStmt (strOf "recap state: no match"))
  | some (d, stateS) =>
    match parseVerifierState stateS with
    | .error e => .error e
    | .ok st => .ok (.recapState ((parseInt10 d).getD 0) st)

/-- Models `parseBranchEvaluation` (no nil check on the submatch slice). -/
def parseBranchEvaluationLine (line : Str) : Except String VerifierStatement :=
  match matchBranchEvalRegex line with
  | none => .error "parseBranchEvaluation: index out of range on nil match"
  | some (d1, d2, stateS) =>
    match parseVerifierState stateS with
    | .error e => .error e
    | .ok st => .ok (.branchEvaluation ((parseInt10 d1).getD 0) ((parseInt10 d2).getD 0) st)

/-- Models `parseBackTrackInstruction`.  The final `.error` branch is the Go
panic of the unchecked type assertion `instruction.(*Instruction)` when
`parseInstruction` produced an `Error` statement. -/
def parseBackTrackInstructionLine (line : Str) : Except String VerifierStatement :=
  match matchBackTrackInstRegex line with
  | none => .error "parseBackTrackInstruction: index out of range on nil match"
  | some (h, d, restS) =>
    match parseInstructionLine restS with
    | .instruction i =>
      .ok (.backTrackInstruction (hexDecode h) ((parseInt10 d).getD 0) i)
    | _ => .error "parseBackTrackInstruction: interface conversion to Instruction failed"

/-- Models `parseBacktrackingTrailer`. -/
def parseBacktrackingTrailerLine (line : Str) : Except String VerifierStatement :=
  match searchMatch matchTrailerAt line with
  | none => .error "parseBacktrackingTrailer: index out of range on nil match"
  | some (pm, h, d, stateS) =>
    match parseVerifierState stateS with
    | .error e => .error e
    | .ok st => .ok (.backTrackingTrailer pm (hexDecode h) ((parseInt10 d).getD 0) st)

/-- Models `parseLoadSuccess`. -/
def parseLoadSuccessLine (line : Str) : Except String VerifierStatement :=
  match searchMatch matchLoadSuccessAt line with
  | none => .error "parseLoadSuccess: index out of range on nil match"
  | some (d1, d2, d3, d4, d5, d6) =>
    .ok (.verifierDone ((parseInt10 d1).getD 0) ((parseInt10 d2).getD 0)
      ((parseInt10 d3).getD 0) ((parseInt10 d4).getD 0) ((parseInt10 d5).getD 0)
      ((parseInt10 d6).getD 0))

/-- Models `parseFunctionCall`; the returned number counts extra scanner
lines consumed. -/
def parseFunctionCallLines (line : Str) (rest : List Str) :
    Except String (Option VerifierStatement × Nat) :=
  if trimSpace line ≠ strOf "caller:" then .ok (none, 0)
  else
    match rest with
    | [] => .ok (none, 0)
    | r1 :: rest1 =>
      match parseVerifierState r1 with
      | .error e => .error e
      | .ok callerState =>
        match rest1 with
        | [] => .ok (none, 1)
        | r2 :: rest2 =>
          if trimSpace r2 ≠ strOf "callee:" then .ok (none, 2)
          else
            match rest2 with
            | [] => .ok (none, 2)
            | r3 :: _ =>
              match parseVerifierState r3 with
              | .error e => .error e
              | .ok calleeState => .ok (some (.functionCall callerState calleeState), 3)

/-- Models `parseReturnFunctionCall`.  The `.error` on a failed
`returnFuncCallRegex` match is the Go panic of `match[1]` on a nil submatch
slice. -/
def parseReturnFunctionCallLines (line : Str) (rest : List Str) :
    Except String (Option VerifierStatement × Nat) :=
  if trimSpace line ≠ strOf "returning from callee:" then .ok (none, 0)
  else
    match rest with
    | [] => .ok (none, 0)
    | r1 :: rest1 =>
      match parseVerifierState r1 with
      | .error e => .error e
      | .ok calleeState =>
        match rest1 with
        | [] => .ok (none, 1)
        | r2 :: rest2 =>
          match matchReturnCallerRegex r2 with
          | none => .error "parseReturnFunctionCall: index out of range on nil match"
          | some d =>
            let callSite := (parseInt10 d).getD 0
            match rest2 with
            | [] => .ok (none, 2)
            | r3 :: _ =>
              match parseVerifierState r3 with
              | .error e => .error e
              | .ok callerState =>
                .ok (some (.returnFunctionCall calleeState callSite callerState), 3)

/-- Models `parseStatement`: the dispatcher over one scanner line, in exact
source order.  The result carries the number of extra lines consumed by the
multi-line statements. -/
def parseStatement (line : Str) (rest : List Str) :
    Except String (Option VerifierStatement × Nat) :=
  if line = [] then .ok (none, 0)
  else if hasPre line (strOf ";") then .ok (some (parseCommentLine line), 0)
  else if hasPre line (strOf "func#") then .ok (parseSubProgLocationLine line, 0)
  else if hasPre line (strOf "propagating") then .ok (some (parsePropagateLine line), 0)
  else if hasPre line (strOf "last_idx") then
    (parseBackTrackingHeaderLine line).map (fun s => (some s, 0))
  else if hasPre line (strOf "caller") then parseFunctionCallLines line rest
  else if hasPre line (strOf "returning from callee") then
    parseReturnFunctionCallLines line rest
  else if (matchStatePrunedRegex line).isSome then
    (parseStatePrunedLine line).map (fun s => (some s, 0))
  else if (matchInstructionStateRegex line).isSome then
    (parseInstructionStateLine line).map (fun s => (some s, 0))
  else if (matchInstructionRegex line).isSome then .ok (some (parseInstructionLine line), 0)
  else if (matchRecapRegex line).isSome then
    (parseRecapStateLine line).map (fun s => (some s, 0))
  else if (matchBranchEvalRegex line).isSome then
    (parseBranchEvaluationLine line).map (fun s => (some s, 0))
  else if (matchBackTrackInstRegex line).isSome then
    (parseBackTrackInstructionLine line).map (fun s => (some s, 0))
  else if (searchMatch matchTrailerAt line).isSome then
    (parseBacktrackingTrailerLine line).map (fun s => (some s, 0))
  else if (searchMatch matchLoadSuccessAt line).isSome then
    (parseLoadSuccessLine line).map (fun s => (some s, 0))
  else .ok (some (.unknown line), 0)

/-- Models `bufio.ScanLines`: split on newlines, no final empty token for a
trailing newline, and a trailing carriage return is dropped from each line. -/
def splitLines (s : Str) : List Str :=
  let pieces := goSplit s '\n'
  let pieces := if pieces.getLast? = some [] then pieces.dropLast else pieces
  pieces.map (fun l => trimSuf l (strOf "\r"))

/-- The scanner loop of `ParseVerifierLog` (also reused by
`MergedPerInstruction`): statements in order, skipping `nil` results.  Fuel:
every round consumes the current line (plus any extra lines of a multi-line
statement), so `lines.length + 1` rounds never exhaust and the fuel branch is
unreachable. -/
def parseLinesLoopF : Nat → List Str → Except String (List VerifierStatement)
  | 0, _ => .error "unreachable: parse fuel exhausted"
  | _, [] => .ok []
  | fuel + 1, l :: ls =>
    match parseStatement l ls with
    | .error e => .error e
    | .ok (st?, n) =>
      match parseLinesLoopF fuel (ls.drop n) with
      | .error e => .error e
      | .ok stmts =>
        .ok (match st? with | some st => st :: stmts | none => stmts)

def parseLinesLoop (lines : List Str) : Except String (List VerifierStatement) :=
  parseLinesLoopF (lines.length + 1) lines

/-- Models `ParseVerifierLog`; `.error` is a Go run-time panic. -/
def parseVerifierLog (log : Str) : Except String (List VerifierStatement) :=
  parseLinesLoop (splitLines log)

/-! ## The `String()` renderers -/

def decDigitChar (n : Nat) : Char := Char.ofNat (48 + n)

def hexDigitChar (n : Nat) : Char :=
  if n < 10 then Char.ofNat (48 + n) else Char.ofNat (87 + n)

/-- Decimal digits of a natural number (Go `%d`), with fuel: `n + 1`
divisions by ten always reach a single digit, so the fuel branch is
unreachable. -/
def natToDecF : Nat → Nat → Str
  | 0, _ => []
  | fuel + 1, n =>
    if n < 10 then [decDigitChar n]
    else natToDecF fuel (n / 10) ++ [decDigitChar (n % 10)]

def natToDec (n : Nat) : Str := natToDecF (n + 1) n

/-- Go `%d` of a (signed) integer. -/
def intDec (x : Int) : Str :=
  if x < 0 then '-' :: natToDec (-x).toNat else natToDec x.toNat

/-- Lowercase hex digits of a natural number, with always-sufficient fuel. -/
def natToHexF : Nat → Nat → Str
  | 0, _ => []
  | fuel + 1, n =>
    if n < 16 then [hexDigitChar n]
    else natToHexF fuel (n / 16) ++ [hexDigitChar (n % 16)]

def natToHex (n : Nat) : Str := natToHexF (n + 1) n

/-- Go `%x` of an `int64` (negative values render with a leading minus). -/
def intHex (x : Int) : Str :=
  if x < 0 then '-' :: natToHex (-x).toNat else natToHex x.toNat

/-- Go `%02x` of one byte. -/
def byteHex2 (n : Nat) : Str := [hexDigitChar (n / 16 % 16), hexDigitChar (n % 16)]

/-- Go `%x` of a `[]byte`: two lowercase hex digits per byte. -/
def bytesHex (bs : List Nat) : Str := bs.flatMap byteHex2

/-- Models `RegType.String`. -/
def regTypeStr (rt : RegType) : Str :=
  let sb : Str := []
  let sb := if rt &&& RegTypeMemReadonly ≠ 0 then sb ++ strOf "rdonly_" else sb
  let sb := if rt &&& RegTypeMemAlloc ≠ 0 then sb ++ strOf "alloc_" else sb
  let sb := if rt &&& RegTypeMemUser ≠ 0 then sb ++ strOf "user_" else sb
  let sb := if rt &&& RegTypeMemPreCPU ≠ 0 then sb ++ strOf "per_cpu_" else sb
  let sb := sb ++ rtToString (rt &&& RegTypeBaseType)
  if rt &&& RegTypePtrMaybeNull ≠ 0 then
    if rt &&& RegTypeBaseType = RegTypePtrToBTFID then sb ++ strOf "or_null_"
    else sb ++ strOf "_or_null_"
  else sb

/-- Models `strings.Join(args, ",")`. -/
def joinComma (args : List Str) : Str := List.intercalate (strOf ",") args

/-- Models `RegisterValue.String`, including the source's rendering slips
(the `umax`/`u32` branches print the wrong key or field; they are kept
verbatim). -/
def registerValueStr (rv : RegisterValue) : Str :=
  let baseType := rv.type &&& RegTypeBaseType
  let sb : Str := []
  let sb := if rv.type = RegTypeScalarValue ∧ rv.precise then sb ++ strOf "P" else sb
  if (rv.type = RegTypeScalarValue ∨ rv.type = RegTypePtrToStack) ∧ rv.varOff.isConst then
    if rv.type = RegTypeScalarValue then sb ++ intDec (rv.varOff.value + rv.off)
    else sb ++ regTypeStr rv.type
  else
    let sb := sb ++ regTypeStr rv.type
    let sb := if baseType = RegTypePtrToBTFID then sb ++ rv.btfName else sb
    let sb := sb ++ strOf "("
    let args : List Str := []
    let args := if rv.id ≠ 0 then args ++ [strOf "id=" ++ intDec rv.id] else args
    let args :=
      if baseType = RegTypePtrToSock ∨ baseType = RegTypePtrToTCPSock ∨
          baseType = RegTypePtrToMem then
        args ++ [strOf "ref_obj_id=" ++ intDec rv.refObjID]
      else args
    let args :=
      if baseType ≠ RegTypeScalarValue then args ++ [strOf "off=" ++ intDec rv.off] else args
    let args :=
      if baseType = RegTypePtrToPacket ∨ baseType = RegTypePtrToPacketMeta then
        args ++ [strOf "r=" ++ intDec rv.range]
      else if baseType = RegTypeConstPtrToMap ∨ baseType = RegTypePtrToMapKey ∨
          baseType = RegTypeMapValue then
        args ++ [strOf "ks=" ++ intDec rv.keySize ++ strOf ",vs=" ++ intDec rv.valueSize]
      else args
    let args :=
      if rv.varOff.isConst then args ++ [strOf "imm=" ++ intDec rv.varOff.value]
      else
        let args :=
          if rv.sMinValue ≠ intOfUint64 rv.uMinValue ∧ rv.sMinValue ≠ minInt64 then
            args ++ [strOf "smin=" ++ intDec rv.sMinValue]
          else args
        let args :=
          if rv.sMaxValue ≠ intOfUint64 rv.uMaxValue ∧ rv.sMaxValue ≠ maxInt64 then
            args ++ [strOf "smax=" ++ intDec rv.sMaxValue]
          else args
        let args :=
          if rv.uMinValue ≠ 0 then args ++ [strOf "umin=" ++ intDec rv.sMaxValue] else args
        let args :=
          if rv.uMaxValue ≠ maxUint64 then args ++ [strOf "umin=" ++ intDec rv.sMaxValue]
          else args
        let args :=
          if !rv.varOff.isUnknown then
            args ++ [strOf "var_off=(" ++ intHex rv.varOff.value ++ strOf "; " ++
              intHex rv.varOff.mask ++ strOf ")"]
          else args
        let args :=
          if rv.s32MinValue ≠ rv.sMinValue ∧ rv.s32MinValue ≠ minInt32 then
            args ++ [strOf "s32_min=" ++ intDec rv.s32MinValue]
          else args
        let args :=
          if rv.s32MaxValue ≠ rv.sMaxValue ∧ rv.s32MaxValue ≠ maxInt32 then
            args ++ [strOf "s32_max=" ++ intDec rv.s32MaxValue]
          else args
        let args :=
          if rv.u32MinValue ≠ rv.uMinValue ∧ rv.u32MinValue ≠ 0 then
            args ++ [strOf "u32_min=" ++ intDec rv.s32MinValue]
          else args
        let args :=
          if rv.u32MaxValue ≠ rv.uMaxValue ∧ rv.u32MaxValue ≠ maxUint32 then
            args ++ [strOf "u32_max=" ++ intDec (rv.u32MaxValue : Int)]
          else args
        args
    sb ++ joinComma args ++ strOf ")"

/-- The liveness suffix shared by `RegisterState.String` and
`StackState.String`. -/
def livenessSuffix : Liveness → Str
  | .read => strOf "_r"
  | .written => strOf "_w"
  | .done => strOf "_D"
  | .none => []

/-- Models `RegisterState.String`. -/
def registerStateStr (r : RegisterState) : Str :=
  strOf "R" ++ natToDec r.register ++ livenessSuffix r.liveness ++ strOf "=" ++
    registerValueStr r.value

/-- Models `StackState.String` (the spilled-register branch prints the raw
`rtToString` entry of the full type). -/
def stackStateStr (ss : StackState) : Str :=
  let sb := strOf "fp-" ++ intDec ss.offset ++ livenessSuffix ss.liveness ++ strOf "="
  if ss.spilledRegister.type ≠ RegTypeNotInit then sb ++ rtToString ss.spilledRegister.type
  else sb ++ ss.slots

/-- Models `VerifierState.String` with its separator placement. -/
def verifierStateStr (vs : VerifierState) : Str :=
  let sb := if vs.frameNumber ≠ 0 then strOf "frame" ++ intDec vs.frameNumber ++ strOf ": " else []
  let regPart := (List.range vs.registers.length).foldl (fun acc i =>
    acc ++ registerStateStr (vs.registers.getD i {}) ++
      (if i + 1 < vs.registers.length ∨ vs.stack.length > 0 then strOf " " else [])) []
  let stackPart := (List.range vs.stack.length).foldl (fun acc i =>
    acc ++ stackStateStr (vs.stack.getD i {}) ++
      (if i + 1 < vs.stack.length then strOf " " else [])) []
  sb ++ regPart ++ stackPart

/-- Models `Instruction.String` (`"%d: (%02x)%s"`). -/
def logInstructionStr (i : LogInstruction) : Str :=
  intDec i.instructionNumber ++ strOf ": (" ++ byteHex2 i.opcode ++ strOf ")" ++ i.assembly

/-- Models the `String()` method of each statement variant. -/
def verifierStatementStr : VerifierStatement → Str
  | .unknown l => l
  | .errorStmt m => m
  | .comment c => strOf "; " ++ c
  | .recapState n st => intDec n ++ strOf ": " ++ verifierStateStr st
  | .instructionState i st => logInstructionStr i ++ strOf "; " ++ verifierStateStr st
  | .instruction i => logInstructionStr i
  | .subProgLocation p s => strOf "func#" ++ intDec p ++ strOf " @" ++ intDec s
  | .propagatePrecision (some r) _ => strOf "propagating r" ++ natToDec r
  | .propagatePrecision none off => strOf "propagating fp-" ++ intDec off
  | .statePruned f t =>
    if f = t then intDec f ++ strOf ": safe"
    else strOf "from " ++ intDec f ++ strOf " to " ++ intDec t ++ strOf ": safe"
  | .branchEvaluation f t st =>
    strOf "from " ++ intDec f ++ strOf " to " ++ intDec t ++ strOf ": " ++ verifierStateStr st
  | .backTrackingHeader l fs => strOf "last_idx " ++ intDec l ++ strOf " first_idx " ++ intDec fs
  | .backTrackInstruction regs stack i =>
    strOf "regs=" ++ bytesHex regs ++ strOf " stack=" ++ intDec stack ++ strOf " before " ++
      logInstructionStr i
  | .backTrackingTrailer pm regs stack st =>
    (if pm then strOf "parent already had regs=" else strOf "parent didn\x27t have regs=") ++
      bytesHex regs ++ strOf " stack=" ++ intDec stack ++ strOf " marks: " ++ verifierStateStr st
  | .verifierDone a b c d e f =>
    strOf "processed " ++ intDec a ++ strOf " insns (limit " ++ intDec b ++
      strOf ") max_states_per_insn " ++ intDec c ++ strOf " total_states " ++ intDec d ++
      strOf " peak_states " ++ intDec e ++ strOf " mark_read " ++ intDec f
  | .functionCall cr ce =>
    strOf "caller:" ++ ['\n'] ++ verifierStateStr cr ++ ['\n'] ++ strOf "callee:" ++ ['\n'] ++
      verifierStateStr ce
  | .returnFunctionCall ce cs cr =>
    strOf "returning from callee:" ++ ['\n'] ++ verifierStateStr ce ++ ['\n'] ++
      strOf "to caller at " ++ intDec cs ++ strOf ":" ++ ['\n'] ++ verifierStateStr cr

/-- Whitespace normalization, formalising the spec's "modulo whitespace
normalization": collapse every whitespace run to a single space and trim both
ends.  (This definition follows the spec's words; it is the comparison
relation of the round-trip claim, not source code.) -/
def collapseWsGo : Bool → Str → Str
  | _, [] => []
  | inRun, c :: rest =>
    if c.isWhitespace then
      if inRun then collapseWsGo true rest else ' ' :: collapseWsGo true rest
    else c :: collapseWsGo false rest

def collapseWs (s : Str) : Str := collapseWsGo false s

def normalizeWs (s : Str) : Str := collapseWs (trimSpace s)

/-! ## The state merger (`MergedPerInstruction`) -/

/-- The keyed-overwrite step shared by the two halves of `mergeCurState`:
an incoming entry overwrites the entry with the same key, or is appended. -/
def mergeInto {α κ : Type} [BEq κ] (key : α → κ) (xs : List α) (x : α) : List α :=
  match xs.findIdx? (fun y => key y == key x) with
  | some i => xs.set i x
  | none => xs ++ [x]

/-- The keyed step shared by the two halves of `applyCurState`.  On a hit the
source writes the existing element back onto itself
(`states[instNum].Registers[i] = reg`, where `reg` is the element just read
from `states[instNum].Registers`), so the published entry is unchanged; only
entries with a missing key are appended. -/
def publishInto {α κ : Type} [BEq κ] (key : α → κ) (xs : List α) (x : α) : List α :=
  match xs.findIdx? (fun y => key y == key x) with
  | some _ => xs
  | none => xs ++ [x]

/-- The register half of `mergeCurState`, keyed by register number. -/
def mergeRegInto : List RegisterState → RegisterState → List RegisterState :=
  mergeInto (fun r => r.register)

/-- The stack half of `mergeCurState`, keyed by slot offset. -/
def mergeSlotInto : List StackState → StackState → List StackState :=
  mergeInto (fun s => s.offset)

/-- Models `mergeCurState`: merge a statement's state into the current
state. -/
def mergeCurState (cur state : VerifierState) : VerifierState :=
  { cur with
    registers := state.registers.foldl mergeRegInto cur.registers
    stack := state.stack.foldl mergeSlotInto cur.stack }

/-- The register half of `applyCurState` (self-write on a hit). -/
def publishRegInto : List RegisterState → RegisterState → List RegisterState :=
  publishInto (fun r => r.register)

/-- The stack half of `applyCurState` (self-write on a hit). -/
def publishSlotInto : List StackState → StackState → List StackState :=
  publishInto (fun s => s.offset)

/-- Models `applyCurState`: grow `states` on demand to `instNum + 1` entries,
then publish the current state at `instNum`.  A negative instruction number
(impossible for parsed statements, whose numbers come from digit runs) would
panic in Go, modelled by `.error`. -/
def applyCurState (curState : VerifierState) (states0 : List VerifierState) (instNum : Int) :
    Except String (List VerifierState) :=
  let states :=
    if instNum ≥ (states0.length : Int) then
      states0 ++ List.replicate (1 + instNum - states0.length).toNat ({} : VerifierState)
    else states0
  if instNum < 0 then .error "runtime error: index out of range"
  else
    let n := instNum.toNat
    let st := states.getD n {}
    .ok (states.set n
      { st with
        registers := curState.registers.foldl publishRegInto st.registers
        stack := curState.stack.foldl publishSlotInto st.stack })

/-- The fold state of `MergedPerInstruction`. -/
structure MergerState where
  curState : VerifierState := {}
  states : List VerifierState := []
deriving DecidableEq, Repr, Inhabited

/-- One statement of the `MergedPerInstruction` loop. -/
def mergedStep (ms : MergerState) (stmt : VerifierStatement) : Except String MergerState :=
  match stmt with
  | .recapState _ st => .ok { ms with curState := mergeCurState ms.curState st }
  | .returnFunctionCall _ _ callerState => .ok { ms with curState := callerState }
  | .branchEvaluation _ _ st => .ok { ms with curState := st }
  | .instruction i =>
    (applyCurState ms.curState ms.states i.instructionNumber).map
      (fun s => { ms with states := s })
  | .instructionState i st =>
    (applyCurState ms.curState ms.states i.instructionNumber).map
      (fun s => { curState := mergeCurState ms.curState st, states := s })
  | _ => .ok ms

/-- The merger folded over a statement list. -/
def mergedStmts (stmts : List VerifierStatement) : Except String MergerState :=
  stmts.foldlM mergedStep {}

/-- Models `MergedPerInstruction`.  The source interleaves scanning, parsing
and merging in one loop; since statements are processed in scan order this
equals parsing first and folding after. -/
def mergedPerInstruction (log : Str) : Except String (List VerifierState) := do
  let stmts ← parseVerifierLog log
  let ms ← mergedStmts stmts
  .ok ms.states

/-! ## The CFG builder (`ProgramBlocks`) -/

/-- The jump-op classification of an opcode (`asm.OpCode.JumpOp`):
`invalid` for non-jump classes, and the unconditional / conditional / call /
exit jump operations otherwise. -/
inductive JmpOp where
  | invalid | ja | cond | call | exit
deriving DecidableEq, Repr, Inhabited

/-- Operand width of a memory access (the engine only emits `Half` and
`DWord`). -/
inductive OpSize where
  | half | dword
deriving DecidableEq, Repr, Inhabited

/-- The concrete instruction forms the engine reads or emits; `alu` stands
for any other non-jump opcode.  `jumpCond` keeps the name of the condition
(`jeq`, `jne`, …) since the CFG treats all conditionals alike. -/
inductive InstKind where
  | movImm | movReg
  | storeMem (sz : OpSize) | loadMem (sz : OpSize) | storeImm (sz : OpSize)
  | loadMapPtr
  | addImm
  | helperCall (fn : Int)
  | funcCall
  | exitInst
  | ja
  | jumpCond (name : String)
  | alu
deriving DecidableEq, Repr, Inhabited

/-- `asm.OpCode.JumpOp` on the instruction kinds. -/
def InstKind.jumpOp : InstKind → JmpOp
  | .helperCall _ => .call
  | .funcCall => .call
  | .exitInst => .exit
  | .ja => .ja
  | .jumpCond _ => .cond
  | _ => .invalid

/-- `asm.OpCode.IsDWordLoad`: the double-word immediate load (`LoadMapPtr`)
occupies two raw instruction slots. -/
def InstKind.isDWordLoad : InstKind → Bool
  | .loadMapPtr => true
  | _ => false

/-- Models `asm.Instruction` together with its symbol/reference metadata
(`[]` plays Go's empty string). -/
structure Instruction where
  kind : InstKind
  dst : Nat := 0
  src : Nat := 0
  offset : Int := 0
  constant : Int := 0
  symbol : Str := []
  reference : Str := []
deriving DecidableEq, Repr, Inhabited

/-- Models `asm.Instruction.IsFunctionCall` (a call to another byte-code
function, as opposed to a helper call). -/
def Instruction.isFunctionCall (i : Instruction) : Bool :=
  match i.kind with
  | .funcCall => true
  | _ => false

/-- The raw instruction offset of each list position (`Instructions.Iterate`
advances by two over dword loads). -/
def rawOffsets (prog : List Instruction) : List Nat :=
  (prog.foldl
    (fun acc i => (acc.1 ++ [acc.2], acc.2 + (if i.kind.isDWordLoad then 2 else 1)))
    (([] : List Nat), 0)).1

/-- Models the `offToInst` map: the list index whose raw offset equals the
target (raw offsets are strictly increasing, hence unique). -/
def offToIdx (prog : List Instruction) (target : Int) : Option Nat :=
  (rawOffsets prog).findIdx? (fun (o : Nat) => ((o : Nat) : Int) == target)

/-- The synthesized jump label `j-<target>`. -/
def jLabel (target : Int) : Str := strOf "j-" ++ intDec target

/-- One index of the jump-labelling pass of `ProgramBlocks` (step 2 of its
doc comment): for a non-call, non-exit jump, tag the target instruction with
the label `j-<target>` and rewrite the jump to reference the label with
offset `-1`.  `.error` models the Go nil-map-entry dereference when a jump
targets no instruction boundary.  Opcodes are never mutated, so recomputing
raw offsets and the offset map from the original program is exact. -/
def labelJumpStep (prog : List Instruction) (cur : List Instruction) (idx : Nat) :
    Except String (List Instruction) :=
  let inst := cur.getD idx default
  let op := inst.kind.jumpOp
  if op = .invalid ∨ op = .call ∨ op = .exit then .ok cur
  else
    let rawOff := (rawOffsets prog).getD idx 0
    let targetOff : Int := (rawOff : Int) + inst.offset + 1
    let label := jLabel targetOff
    match offToIdx prog targetOff with
    | none => .error "runtime error: invalid memory address or nil pointer dereference"
    | some tIdx =>
      let cur := cur.set tIdx { (cur.getD tIdx default) with symbol := label }
      .ok (cur.set idx { (cur.getD idx default) with offset := -1, reference := label })

/-- The jump-labelling pass: `labelJumpStep` over every instruction index in
order. -/
def labelJumps (prog : List Instruction) : Except String (List Instruction) :=
  (List.range prog.length).foldlM (labelJumpStep prog) prog

/-- Models `coverbee.ProgBlock`.  The Go struct links blocks by pointer; the
model links them by block index (`Index` always equals the position in the
returned list), with the dangling "one past the end" successor of a final
non-exit jump represented by the out-of-range index `blocks.length`. -/
structure ProgBlock where
  index : Nat := 0
  block : List Instruction := []
  noBranch : Option Nat := none
  branch : Option Nat := none
deriving DecidableEq, Repr, Inhabited

/-- The fold state of the block-construction loop. -/
structure BuildSt where
  blocks : List ProgBlock := []
  curBlock : ProgBlock := {}
deriving DecidableEq, Repr, Inhabited

/-- One instruction of the block-construction loop (step 3): close the
in-progress block before a symbol-bearing instruction, append the
instruction, and close after any jump, linking the fall-through edge unless
the jump is an exit. -/
def buildStep (st : BuildSt) (inst : Instruction) : BuildSt :=
  let st :=
    if inst.symbol ≠ [] ∧ st.curBlock.block ≠ [] then
      { blocks := st.blocks ++ [{ st.curBlock with noBranch := some (st.curBlock.index + 1) }]
      , curBlock := { index := st.curBlock.index + 1 } }
    else st
  let st : BuildSt :=
    { st with curBlock := { st.curBlock with block := st.curBlock.block ++ [inst] } }
  if inst.kind.jumpOp = .invalid then st
  else
    let closed :=
      { st.curBlock with
        noBranch := if inst.kind.jumpOp = .exit then st.curBlock.noBranch
                    else some (st.curBlock.index + 1) }
    { blocks := st.blocks ++ [closed], curBlock := { index := st.curBlock.index + 1 } }

/-- Blocks of an instruction list.  As in the source, a trailing run of
straight-line code after the last jump or symbol is left in the in-progress
block and never appended. -/
def buildBlocks (prog : List Instruction) : List ProgBlock :=
  (prog.foldl buildStep {}).blocks

/-- One insertion of the `symToBlock` map build (step 4); every constructed
block is non-empty, so `Block[0]` is its head. -/
def symStep (acc : List (Str × Nat)) (b : ProgBlock) : List (Str × Nat) :=
  let sym := (b.block.headD default).symbol
  if sym ≠ [] then acc ++ [(sym, b.index)] else acc

/-- Models the `symToBlock` map build over the block list. -/
def symToBlockList (blocks : List ProgBlock) : List (Str × Nat) :=
  blocks.foldl symStep []

/-- Go map lookup over the insertion list: the last insertion wins; `none`
models the `nil` zero value for an absent key. -/
def lookupLast (m : List (Str × Nat)) (k : Str) : Option Nat :=
  m.foldl (fun acc kv => if kv.1 = k then some kv.2 else acc) none

/-- One block of the edge-linking pass (step 5): the branch successor is the
block keyed by the last instruction's reference, skipped for non-jumps and
exits. -/
def linkBlockFn (m : List (Str × Nat)) (b : ProgBlock) : ProgBlock :=
  let lastInst := b.block.getLastD default
  let op := lastInst.kind.jumpOp
  if op = .invalid ∨ op = .exit then b
  else { b with branch := lookupLast m lastInst.reference }

/-- The edge-linking pass over the block list. -/
def linkBlocks (blocks : List ProgBlock) : List ProgBlock :=
  blocks.map (linkBlockFn (symToBlockList blocks))

/-- Models `ProgramBlocks` (the `slices.Clone` is implicit in the pure
model). -/
def programBlocks (prog : List Instruction) : Except String (List ProgBlock) :=
  (labelJumps prog).map (fun p => linkBlocks (buildBlocks p))

/-! ## The instrumentation engine (`InstrumentAndLoadCollection`) -/

/-- Models `ebpf.ProgramSpec` as far as the engine touches it: the
instruction list and the BTF function metadata, the latter reduced to the
parameter count per function symbol (`BTF.TypeByName` + `FuncProto.Params`);
`btf = none` models a nil BTF field. -/
structure ProgramSpec where
  instructions : List Instruction := []
  btf : Option (List (Str × Nat)) := none
deriving DecidableEq, Repr, Inhabited

/-- `ebpf.Array` is map type 2. -/
def ebpfArrayType : Nat := 2

/-- Models `ebpf.MapSpec` as far as the engine sets it. -/
structure MapSpec where
  name : Str := []
  mapType : Nat := 0
  keySize : Nat := 0
  maxEntries : Nat := 0
  valueSize : Nat := 0
deriving DecidableEq, Repr, Inhabited

/-- Models `ebpf.CollectionSpec`: Go maps with unique keys, embedded as
association lists; iteration order (unspecified in Go) is the list order. -/
structure CollectionSpec where
  programs : List (Str × ProgramSpec) := []
  maps : List (Str × MapSpec) := []
deriving DecidableEq, Repr, Inhabited

/-- Association-list lookup (first hit; keys are unique). -/
def assocLookup {α : Type} (m : List (Str × α)) (k : Str) : Option α :=
  match m.find? (fun kv => kv.1 == k) with
  | some kv => some kv.2
  | none => none

/-- Go map insert/overwrite. -/
def upsertAssoc {α : Type} (m : List (Str × α)) (k : Str) (v : α) : List (Str × α) :=
  if m.any (fun kv => kv.1 == k) then m.map (fun kv => if kv.1 == k then (k, v) else kv)
  else m ++ [(k, v)]

/-- The string-set insertion of `subProgFuncs[...] = true`. -/
def setInsert (s : List Str) (k : Str) : List Str := if s.contains k then s else s ++ [k]

/-- `progFunc := BTF.TypeByName(blockSym)`, then
`len(progFunc.Type.(*btf.FuncProto).Params)`; `none` is the error path
(the "cannot find Func" error path, also taken for a nil BTF). -/
def btfParamCount (btf : Option (List (Str × Nat))) (sym : Str) : Option Nat :=
  match btf with
  | none => none
  | some funcs => funcs.lookup sym

/-- Inclusive register range `a..b` (`for i := a; i <= b; i++`). -/
def regRange (a b : Nat) : List Nat := (List.range (b + 1)).drop a

/-- The per-function prologue (steps 1–8 of the source, lines 159–229):
zero the uninitialised registers, park `R1..RregCnt` in `R6..`, spill `R5`
to the second save slot when all five are used, look the cover map value up
and store it at `coverMapPFOff`, then restore. -/
def prologueInstrs (regCnt0 : Nat) (coverMapPFOff regSave1FPOff regSave2FPOff : Int) :
    List Instruction :=
  let instr : List Instruction := [{ kind := .movImm, dst := 0, constant := 0 }]
  let instr := instr ++
    (regRange (1 + regCnt0) 9).map (fun i => { kind := .movImm, dst := i, constant := 0 })
  let (instr, regCnt) :=
    if regCnt0 = 5 then
      (instr ++ [{ kind := .storeMem .dword, dst := 10, src := 5, offset := -regSave2FPOff }], 4)
    else (instr, regCnt0)
  let instr := instr ++
    (regRange 1 regCnt).map (fun i => { kind := .movReg, dst := i + 5, src := i })
  let instr := instr ++
    [ { kind := .loadMapPtr, dst := 1, constant := 0, reference := strOf "coverbee_covermap" }
    , { kind := .movReg, dst := 2, src := 10 }
    , { kind := .addImm, dst := 2, constant := -regSave1FPOff }
    , { kind := .storeImm .dword, dst := 2, offset := 0, constant := 0 }
    , { kind := .helperCall 1 }
    , { kind := .jumpCond "jne", dst := 0, offset := 2, constant := 0 }
    , { kind := .movImm, dst := 0, constant := -1 }
    , { kind := .exitInst }
    , { kind := .storeMem .dword, dst := 10, src := 0, offset := -coverMapPFOff } ]
  let instr := instr ++
    (regRange 1 regCnt).map (fun i => { kind := .movReg, dst := i, src := i + 5 })
  if regCnt0 = 5 then
    instr ++ [{ kind := .loadMem .dword, dst := 5, src := 10, offset := -regSave2FPOff }]
  else instr

/-- The merged-state read of the engine (`mergedStates[instn]`, lines
231–234): Go's slice indexing panics when `instn` is at or past the array
length. -/
def readMergedState (mergedStates : List VerifierState) (instn : Nat) :
    Except String VerifierState :=
  match mergedStates.get? instn with
  | none => .error "runtime error: index out of range"
  | some st => .ok st

/-- `usedRegs[reg.Register] = true` over the state's registers; a register
number above 10 would overflow the `[11]bool` array and panic. -/
def computeUsedRegs (regs : List RegisterState) : Except String (List Nat) :=
  regs.foldlM
    (fun acc r =>
      if r.register ≤ 10 then .ok (if acc.contains r.register then acc else acc ++ [r.register])
      else .error "runtime error: index out of range")
    []

/-- The search for two never-used registers among `R0..R9` (lines 242–255):
the ascending scan takes the first two registers outside the used set. -/
def pickUnused (used : List Nat) : Option Nat × Option Nat :=
  let free := (List.range 10).filter (fun i => !(used.contains i))
  (free.get? 0, free.get? 1)

/-- The per-block counter trailer (lines 237–305): pick or spill the two
scratch registers, load the map value, bump the 16-bit counter at
`2·blockID`, write it back, and restore any spilled register. -/
def blockTrailer (used : List Nat) (blockID : Nat)
    (coverMapPFOff regSave1FPOff regSave2FPOff : Int) : List Instruction :=
  let (unusedR1, unusedR2) := pickUnused used
  let (instr, mapValR) : List Instruction × Nat :=
    match unusedR1 with
    | some r => ([], r)
    | none => ([{ kind := .storeMem .dword, dst := 10, src := 8, offset := -regSave1FPOff }], 8)
  let (instr, counterR) : List Instruction × Nat :=
    match unusedR2 with
    | some r => (instr, r)
    | none =>
      let c := if mapValR = 9 then 8 else 9
      (instr ++ [{ kind := .storeMem .dword, dst := 10, src := c, offset := -regSave2FPOff }], c)
  let instr := instr ++
    [ { kind := .loadMem .dword, dst := mapValR, src := 10, offset := -coverMapPFOff }
    , { kind := .loadMem .half, dst := counterR, src := mapValR, offset := (blockID : Int) * 2 }
    , { kind := .addImm, dst := counterR, constant := 1 }
    , { kind := .storeMem .half, dst := mapValR, src := counterR, offset := (blockID : Int) * 2 } ]
  let instr :=
    if unusedR1 = none then
      instr ++ [{ kind := .loadMem .dword, dst := mapValR, src := 10, offset := -regSave1FPOff }]
    else instr
  if unusedR2 = none then
    instr ++ [{ kind := .loadMem .dword, dst := counterR, src := 10, offset := -regSave2FPOff }]
  else instr

/-- The accumulator of the per-block loop. -/
structure EngineAcc where
  newProgram : List Instruction := []
  instn : Nat := 0
  blockID : Nat := 0
  subProgFuncs : List Str := []
deriving DecidableEq, Repr, Inhabited

/-- One block of the instrumentation loop (lines 152–335). -/
def instrumentOneBlock (name : Str) (btf : Option (List (Str × Nat)))
    (mergedStates : List VerifierState) (coverMapPFOff regSave1FPOff regSave2FPOff : Int)
    (acc : EngineAcc) (block : ProgBlock) : Except String EngineAcc := do
  let blockSym := (block.block.headD default).symbol
  let instr ←
    if acc.subProgFuncs.contains blockSym || name == blockSym then
      match btfParamCount btf blockSym with
      | none => .error "can't find Func for block symbol"
      | some regCnt => .ok (prologueInstrs regCnt coverMapPFOff regSave1FPOff regSave2FPOff)
    else .ok ([] : List Instruction)
  let st ← readMergedState mergedStates acc.instn
  let used ← computeUsedRegs st.registers
  let instr := instr ++ blockTrailer used acc.blockID coverMapPFOff regSave1FPOff regSave2FPOff
  match instr with
  | [] => .error "unreachable: the trailer always emits instructions"
  | instrHead :: instrTail =>
    let newProgram := acc.newProgram ++ [{ instrHead with symbol := blockSym }] ++ instrTail
    let origCleared :=
      match block.block with
      | [] => []
      | h :: t => { h with symbol := [] } :: t
    let subProgFuncs := block.block.foldl
      (fun s i => if i.isFunctionCall then setInsert s i.reference else s) acc.subProgFuncs
    let newProgram := newProgram ++ origCleared
    let instn := block.block.foldl
      (fun n i => n + (if i.kind.isDWordLoad then 2 else 1)) acc.instn
    .ok { newProgram := newProgram, instn := instn, blockID := acc.blockID + 1
        , subProgFuncs := subProgFuncs }

/-- The per-program part of `InstrumentAndLoadCollection` (lines 100–346):
stack offsets from the merged states, the CFG, the sub-program set, and the
block loop.  Returns the rewritten program, the pre-instrumentation block
list and the next global block id. -/
def instrumentProgram (name : Str) (btf : Option (List (Str × Nat)))
    (mergedStates : List VerifierState) (insns : List Instruction) (blockID0 : Nat) :
    Except String (List Instruction × List ProgBlock × Nat) := do
  let progMaxFPOff := mergedStates.foldl
    (fun m st => st.stack.foldl (fun m2 slot => if slot.offset > m2 then slot.offset else m2) m)
    (0 : Int)
  let coverMapPFOff := progMaxFPOff + 8
  let regSave1FPOff := progMaxFPOff + 16
  let regSave2FPOff := progMaxFPOff + 24
  let blocks ← programBlocks insns
  let subProgFuncs := insns.foldl
    (fun s i => if i.isFunctionCall then setInsert s i.reference else s) []
  let acc ← blocks.foldlM
    (instrumentOneBlock name btf mergedStates coverMapPFOff regSave1FPOff regSave2FPOff)
    { newProgram := [], instn := 0, blockID := blockID0, subProgFuncs := subProgFuncs }
  .ok (acc.newProgram, blocks, acc.blockID)

/-- The outcome of one kernel load attempt. -/
inductive LoadResult where
  | success
  | enospc
  | otherError
deriving DecidableEq, Repr, Inhabited

/-- The external collaborators of `InstrumentAndLoadCollection`: the loader's
outcome per trial attempt (index and current log buffer size) and the
verifier log of each program on a successful trial load. -/
structure LoadEnv where
  trial : Nat → Nat → LoadResult
  logs : Str → Str

/-- The trial-load retry loop (lines 59–76): five iterations starting from a
1 MiB buffer.  ENOSPC shifts the buffer left by two and continues; any other
error returns wrapped at once; a success does **not** leave the loop (the
source has no `break`), so the loop keeps reloading.  Returns the number of
loads performed, the final buffer size, and the result of the last attempt
(`none` only before the first attempt). -/
def trialLoadGo (env : Nat → Nat → LoadResult) :
    Nat → Nat → Nat → Nat → Option LoadResult → Nat × Nat × Option LoadResult
  | 0, _i, logSize, loads, lastRes => (loads, logSize, lastRes)
  | rem + 1, i, logSize, loads, lastRes =>
    let _ := lastRes
    match env i logSize with
    | .enospc => trialLoadGo env rem (i + 1) (logSize <<< 2) (loads + 1) (some .enospc)
    | .otherError => (loads + 1, logSize, some .otherError)
    | .success => trialLoadGo env rem (i + 1) logSize (loads + 1) (some .success)

def trialLoadLoop (env : Nat → Nat → LoadResult) : Nat × Nat × Option LoadResult :=
  trialLoadGo env 5 0 (1 <<< 20) 0 none

/-- The per-program iteration of the writeback loop (lines 100–346 plus the
writebacks at 342 and 345): instrument the program against its merged
verifier states and overwrite the collection entry, clearing its BTF. -/
def collStep (env : LoadEnv)
    (acc : List (Str × ProgramSpec) × List ProgBlock × Nat)
    (nameProg : Str × ProgramSpec) :
    Except String (List (Str × ProgramSpec) × List ProgBlock × Nat) :=
  match mergedPerInstruction (env.logs nameProg.1) with
  | .error e => .error e
  | .ok mergedStates =>
    match instrumentProgram nameProg.1 nameProg.2.btf mergedStates
        nameProg.2.instructions acc.2.2 with
    | .error e => .error e
    | .ok (newProgram, blocks, blockID2) =>
      .ok (upsertAssoc acc.1 nameProg.1
            { nameProg.2 with instructions := newProgram, btf := none }
          , acc.2.1 ++ blocks, blockID2)

/-- Models `InstrumentAndLoadCollection` as a function from the caller's
collection to its final (mutated) state: the source updates
`coll.Programs[name].Instructions`, sets `coll.Programs[name].BTF = nil` and
inserts `coll.Maps["coverbee_covermap"]` on the very object passed in, while
only the initial trial load runs on `coll.Copy()`.  Since Go map keys are
unique, the per-name writeback is the entry-wise transformation below.
`.error` covers the wrapped load error, the instrumentation error and the Go
panics (including the nil-collection dereference after five ENOSPC
failures).  The returned number counts trial loads performed. -/
def instrumentAndLoadCollection (coll : CollectionSpec) (env : LoadEnv) :
    Except String (CollectionSpec × List ProgBlock × Nat) := do
  let (loads, _finalSize, lastRes) := trialLoadLoop env.trial
  match lastRes with
  | some .otherError => .error "load program: wrapped load error"
  | none | some .enospc =>
    .error "runtime error: invalid memory address or nil pointer dereference"
  | some .success =>
    let folded ← coll.programs.foldlM (collStep env) (coll.programs, [], 0)
    let (progs, blockList, blockID) := folded
    let coverMap : MapSpec :=
      { name := strOf "covermap", mapType := ebpfArrayType, keySize := 4, maxEntries := 1
      , valueSize := 2 * (blockID + 1) }
    .ok ({ programs := progs
         , maps := upsertAssoc coll.maps (strOf "coverbee_covermap") coverMap }
        , blockList, loads)

/-! ## Lemmas about the keyed publish/merge folds -/

/-- Whether some entry of `l` carries key `k`. -/
def keysContains {α κ : Type} [BEq κ] (key : α → κ) (l : List α) (k : κ) : Bool :=
  l.any (fun y => key y == k)

/-- The first entry of `l` carrying key `k`. -/
def keyFind {α κ : Type} [BEq κ] (key : α → κ) (l : List α) (k : κ) : Option α :=
  l.find? (fun y => key y == k)

theorem publishInto_eq_if {α κ : Type} [BEq κ] (key : α → κ) (xs : List α) (c : α) :
    publishInto key xs c = if keysContains key xs (key c) then xs else xs ++ [c] := by
  unfold publishInto
  cases h : xs.findIdx? (fun y => key y == key c) with
  | none =>
    have hs := @List.findIdx?_isSome _ xs (fun y => key y == key c)
    rw [h] at hs
    have hany : keysContains key xs (key c) = false := by
      simpa [keysContains] using hs.symm
    simp [hany]
  | some i =>
    have hs := @List.findIdx?_isSome _ xs (fun y => key y == key c)
    rw [h] at hs
    have hany : keysContains key xs (key c) = true := by
      simpa [keysContains] using hs.symm
    simp [hany]

theorem keysContains_publishInto {α κ : Type} [BEq κ] [LawfulBEq κ] (key : α → κ)
    (xs : List α) (c : α) (k : κ) :
    keysContains key (publishInto key xs c) k = (keysContains key xs k || (key c == k)) := by
  rw [publishInto_eq_if]
  by_cases h : keysContains key xs (key c) = true
  · rw [if_pos h]
    by_cases hk : (key c == k) = true
    · have hck : key c = k := eq_of_beq hk
      rw [← hck]
      simp [h]
    · simp only [Bool.not_eq_true] at hk
      simp [hk]
  · simp only [Bool.not_eq_true] at h
    rw [if_neg (by simp [h])]
    simp [keysContains]

theorem keysContains_publishFold {α κ : Type} [BEq κ] [LawfulBEq κ] (key : α → κ)
    (curs : List α) (xs : List α) (k : κ) :
    keysContains key (curs.foldl (publishInto key) xs) k
      = (keysContains key xs k || keysContains key curs k) := by
  induction curs generalizing xs with
  | nil => simp [keysContains]
  | cons c curs ih =>
    rw [List.foldl_cons, ih, keysContains_publishInto]
    simp only [keysContains, List.any_cons]
    rw [Bool.or_assoc]

theorem keyFind_isSome_of_contains {α κ : Type} [BEq κ] (key : α → κ) (xs : List α) (k : κ)
    (h : keysContains key xs k = true) : (keyFind key xs k).isSome := by
  rw [keyFind, List.find?_isSome]
  simpa [keysContains, List.any_eq_true] using h

theorem keyFind_publishInto_of_contains {α κ : Type} [BEq κ] (key : α → κ)
    (xs : List α) (c : α) (k : κ) (h : keysContains key xs k = true) :
    keyFind key (publishInto key xs c) k = keyFind key xs k := by
  rw [publishInto_eq_if]
  by_cases hc : keysContains key xs (key c) = true
  · rw [if_pos hc]
  · rw [if_neg hc]
    unfold keyFind
    rw [List.find?_append]
    exact Option.or_of_isSome (keyFind_isSome_of_contains key xs k h)

theorem keyFind_publishFold_of_contains {α κ : Type} [BEq κ] [LawfulBEq κ] (key : α → κ)
    (curs : List α) (xs : List α) (k : κ) (h : keysContains key xs k = true) :
    keyFind key (curs.foldl (publishInto key) xs) k = keyFind key xs k := by
  induction curs generalizing xs with
  | nil => rfl
  | cons c curs ih =>
    rw [List.foldl_cons, ih _ (by rw [keysContains_publishInto]; simp [h]),
      keyFind_publishInto_of_contains key _ _ _ h]

theorem keyFind_eq_none_of_not_contains {α κ : Type} [BEq κ] (key : α → κ) (xs : List α)
    (k : κ) (h : keysContains key xs k = false) :
    keyFind key xs k = none := by
  cases hf : keyFind key xs k with
  | none => rfl
  | some v =>
    have hs : (keyFind key xs k).isSome := by rw [hf]; rfl
    rw [keyFind, List.find?_isSome] at hs
    have : keysContains key xs k = true := by
      simpa [keysContains, List.any_eq_true] using hs
    rw [this] at h
    exact absurd h (by simp)

theorem keyFind_publishFold_of_not_contains {α κ : Type} [BEq κ] [LawfulBEq κ] (key : α → κ)
    (curs : List α) (xs : List α) (k : κ) (h : keysContains key xs k = false) :
    keyFind key (curs.foldl (publishInto key) xs) k = keyFind key curs k := by
  induction curs generalizing xs with
  | nil =>
    simp only [List.foldl_nil]
    rw [keyFind_eq_none_of_not_contains key xs k h]
    rfl
  | cons c curs ih =>
    rw [List.foldl_cons]
    by_cases hck : (key c == k) = true
    · have hkey : key c = k := eq_of_beq hck
      have hxs : keysContains key xs (key c) = false := by rw [hkey]; exact h
      rw [publishInto_eq_if, if_neg (by simp [hxs])]
      rw [keyFind_publishFold_of_contains key curs (xs ++ [c]) k
        (by simp [keysContains, hck])]
      have hnone : List.find? (fun y => key y == k) xs = none :=
        keyFind_eq_none_of_not_contains key xs k h
      unfold keyFind
      rw [List.find?_append, hnone]
      simp [List.find?, hck]
    · have hstep : keysContains key (publishInto key xs c) k = false := by
        rw [keysContains_publishInto]
        simp only [Bool.not_eq_true] at hck
        simp [h, hck]
      rw [ih _ hstep]
      unfold keyFind
      simp only [Bool.not_eq_true] at hck
      simp [List.find?_cons, hck]

/-- Register keys (register numbers) present in a register list. -/
def hasRegKey (regs : List RegisterState) (k : Nat) : Bool :=
  keysContains (fun r => r.register) regs k

def findRegKey (regs : List RegisterState) (k : Nat) : Option RegisterState :=
  keyFind (fun r => r.register) regs k

/-- Stack keys (slot offsets) present in a stack list. -/
def hasSlotKey (stack : List StackState) (k : Int) : Bool :=
  keysContains (fun s => s.offset) stack k

def findSlotKey (stack : List StackState) (k : Int) : Option StackState :=
  keyFind (fun s => s.offset) stack k

/-- The specification of one publish of the current state `cur` into the
array `states` at index `n`, with result `out`: the array grows to at least
`n + 1` entries, other indices are untouched, the key sets at `n` become the
union of the accumulated and the current keys, previously published entries
keep their values, and fresh keys receive the current state's (first)
entry. -/
abbrev publishOutcome (cur : VerifierState) (states : List VerifierState) (n : Nat)
    (out : List VerifierState) : Prop :=
    (n + 1 ≤ out.length ∧ states.length ≤ out.length) ∧
    (∀ i : Nat, i ≠ n → out.getD i {} = states.getD i {}) ∧
    (∀ k, hasRegKey (out.getD n {}).registers k
        = (hasRegKey (states.getD n {}).registers k || hasRegKey cur.registers k)) ∧
    (∀ k, hasRegKey (states.getD n {}).registers k = true →
        findRegKey (out.getD n {}).registers k = findRegKey (states.getD n {}).registers k) ∧
    (∀ k, hasRegKey (states.getD n {}).registers k = false →
        findRegKey (out.getD n {}).registers k = findRegKey cur.registers k) ∧
    (∀ k, hasSlotKey (out.getD n {}).stack k
        = (hasSlotKey (states.getD n {}).stack k || hasSlotKey cur.stack k)) ∧
    (∀ k, hasSlotKey (states.getD n {}).stack k = true →
        findSlotKey (out.getD n {}).stack k = findSlotKey (states.getD n {}).stack k) ∧
    (∀ k, hasSlotKey (states.getD n {}).stack k = false →
        findSlotKey (out.getD n {}).stack k = findSlotKey cur.stack k)

/-- `applyCurState` satisfies the publish specification. -/
theorem applyCurState_spec (cur : VerifierState) (states : List VerifierState) (n : Nat)
    (out : List VerifierState) (h : applyCurState cur states ((n : Nat) : Int) = .ok out) :
    publishOutcome cur states n out := by
  unfold publishOutcome
  unfold applyCurState at h
  rw [if_neg (by omega)] at h
  set gr := if ((n : Nat) : Int) ≥ (states.length : Int) then
      states ++ List.replicate (1 + ((n : Nat) : Int) - states.length).toNat ({} : VerifierState)
    else states with hgr
  have hgrLen : gr.length = if n ≥ states.length then n + 1 else states.length := by
    rw [hgr]
    by_cases hc : ((n : Nat) : Int) ≥ (states.length : Int)
    · rw [if_pos hc, List.length_append, List.length_replicate, if_pos (by exact_mod_cast hc)]
      have : (1 + ((n : Nat) : Int) - states.length).toNat = 1 + n - states.length := by
        omega
      omega
    · rw [if_neg hc, if_neg (by omega)]
  have hgrGetD : ∀ i : Nat, gr.getD i {} = states.getD i {} := by
    intro i
    rw [hgr]
    by_cases hc : ((n : Nat) : Int) ≥ (states.length : Int)
    · rw [if_pos hc]
      simp only [List.getD, List.get?_eq_getElem?]
      by_cases hi : i < states.length
      · rw [List.getElem?_append_left hi]
      · rw [List.getElem?_append_right (by omega)]
        have h1 : states[i]? = none := by
          rw [List.getElem?_eq_none]
          omega
        rw [h1]
        cases h2 : (List.replicate (1 + ((n : Nat) : Int) - ↑states.length).toNat
            ({} : VerifierState))[i - states.length]? with
        | none => rfl
        | some v =>
          have hmem := List.getElem?_mem h2
          have hv := List.eq_of_mem_replicate hmem
          simp [hv]
    · rw [if_neg hc]
  have hn : ((n : Nat) : Int).toNat = n := by omega
  rw [hn] at h
  have hnlt : n < gr.length := by
    rw [hgrLen]
    by_cases hc : n ≥ states.length
    · rw [if_pos hc]; omega
    · rw [if_neg hc]; omega
  simp only [Except.ok.injEq] at h
  have hout : out = gr.set n
      { gr.getD n {} with
        registers := cur.registers.foldl publishRegInto (gr.getD n {}).registers
        stack := cur.stack.foldl publishSlotInto (gr.getD n {}).stack } := h.symm
  have houtLen : out.length = gr.length := by rw [hout, List.length_set]
  have houtAtN : out.getD n {} =
      { gr.getD n {} with
        registers := cur.registers.foldl publishRegInto (gr.getD n {}).registers
        stack := cur.stack.foldl publishSlotInto (gr.getD n {}).stack } := by
    rw [hout]
    simp only [List.getD, List.get?_eq_getElem?]
    rw [List.getElem?_set_self hnlt]
    rfl
  refine ⟨⟨?_, ?_⟩, ?_, ?_, ?_, ?_, ?_, ?_, ?_⟩
  · rw [houtLen, hgrLen]
    by_cases hc : n ≥ states.length
    · rw [if_pos hc]
    · rw [if_neg hc]; omega
  · rw [houtLen, hgrLen]
    by_cases hc : n ≥ states.length
    · rw [if_pos hc]; omega
    · rw [if_neg hc]
  · intro i hi
    rw [hout]
    simp only [List.getD, List.get?_eq_getElem?]
    rw [List.getElem?_set_ne (by omega)]
    have := hgrGetD i
    simpa [List.getD, List.get?_eq_getElem?] using this
  · intro k
    rw [houtAtN, hgrGetD]
    simp only [hasRegKey]
    exact keysContains_publishFold (fun r => r.register) cur.registers _ k
  · intro k hk
    rw [houtAtN, hgrGetD]
    simp only [findRegKey]
    exact keyFind_publishFold_of_contains (fun r => r.register) cur.registers _ k
      (by simpa only [hasRegKey] using hk)
  · intro k hk
    rw [houtAtN, hgrGetD]
    simp only [findRegKey]
    exact keyFind_publishFold_of_not_contains (fun r => r.register) cur.registers _ k
      (by simpa only [hasRegKey] using hk)
  · intro k
    rw [houtAtN, hgrGetD]
    simp only [hasSlotKey]
    exact keysContains_publishFold (fun s => s.offset) cur.stack _ k
  · intro k hk
    rw [houtAtN, hgrGetD]
    simp only [findSlotKey]
    exact keyFind_publishFold_of_contains (fun s => s.offset) cur.stack _ k
      (by simpa only [hasSlotKey] using hk)
  · intro k hk
    rw [houtAtN, hgrGetD]
    simp only [findSlotKey]
    exact keyFind_publishFold_of_not_contains (fun s => s.offset) cur.stack _ k
      (by simpa only [hasSlotKey] using hk)

theorem applyCurState_nonneg (cur : VerifierState) (states : List VerifierState) (m : Int)
    (out : List VerifierState) (h : applyCurState cur states m = .ok out) : 0 ≤ m := by
  unfold applyCurState at h
  by_cases hm : m < 0
  · rw [if_pos hm] at h
    exact absurd h (by simp)
  · omega

/-- One merger statement never removes a published key: the publish fold only
appends, the growth only pads, and the other statements touch the current
state alone. -/
theorem mergedStep_mono (ms ms' : MergerState) (s : VerifierStatement)
    (h : mergedStep ms s = .ok ms') (i : Nat) :
    (∀ k, hasRegKey ((ms.states.getD i {}).registers) k = true →
          hasRegKey ((ms'.states.getD i {}).registers) k = true) ∧
    (∀ k, hasSlotKey ((ms.states.getD i {}).stack) k = true →
          hasSlotKey ((ms'.states.getD i {}).stack) k = true) := by
  have hPub : ∀ (cur : VerifierState) (instr : LogInstruction) (sOut : List VerifierState),
      applyCurState cur ms.states instr.instructionNumber = .ok sOut →
      (∀ k, hasRegKey ((ms.states.getD i {}).registers) k = true →
            hasRegKey ((sOut.getD i {}).registers) k = true) ∧
      (∀ k, hasSlotKey ((ms.states.getD i {}).stack) k = true →
            hasSlotKey ((sOut.getD i {}).stack) k = true) := by
    intro cur instr sOut happ
    have hpos := applyCurState_nonneg _ _ _ _ happ
    have hn : instr.instructionNumber = ((instr.instructionNumber.toNat : Nat) : Int) := by
      omega
    rw [hn] at happ
    have spec := applyCurState_spec cur ms.states instr.instructionNumber.toNat sOut happ
    by_cases hi : i = instr.instructionNumber.toNat
    · subst hi
      refine ⟨fun k hk => ?_, fun k hk => ?_⟩
      · rw [spec.2.2.1 k, hk]
        rfl
      · rw [spec.2.2.2.2.2.1 k, hk]
        rfl
    · refine ⟨fun k hk => ?_, fun k hk => ?_⟩
      · rw [spec.2.1 i hi]
        exact hk
      · rw [spec.2.1 i hi]
        exact hk
  cases s with
  | instruction instr =>
    simp only [mergedStep] at h
    cases happ : applyCurState ms.curState ms.states instr.instructionNumber with
    | error e => rw [happ] at h; exact absurd h (by simp [Except.map])
    | ok sOut =>
      rw [happ] at h
      simp only [Except.map, Except.ok.injEq] at h
      have hst : ms'.states = sOut := by rw [← h]
      rw [hst]
      exact hPub ms.curState instr sOut happ
  | instructionState instr st =>
    simp only [mergedStep] at h
    cases happ : applyCurState ms.curState ms.states instr.instructionNumber with
    | error e => rw [happ] at h; exact absurd h (by simp [Except.map])
    | ok sOut =>
      rw [happ] at h
      simp only [Except.map, Except.ok.injEq] at h
      have hst : ms'.states = sOut := by rw [← h]
      rw [hst]
      exact hPub ms.curState instr sOut happ
  | recapState n st =>
    simp only [mergedStep, Except.ok.injEq] at h
    rw [← h]
    exact ⟨fun k hk => hk, fun k hk => hk⟩
  | returnFunctionCall ce cs cr =>
    simp only [mergedStep, Except.ok.injEq] at h
    rw [← h]
    exact ⟨fun k hk => hk, fun k hk => hk⟩
  | branchEvaluation f t st =>
    simp only [mergedStep, Except.ok.injEq] at h
    rw [← h]
    exact ⟨fun k hk => hk, fun k hk => hk⟩
  | unknown l =>
    simp only [mergedStep, Except.ok.injEq] at h
    rw [← h]
    exact ⟨fun k hk => hk, fun k hk => hk⟩
  | errorStmt m =>
    simp only [mergedStep, Except.ok.injEq] at h
    rw [← h]
    exact ⟨fun k hk => hk, fun k hk => hk⟩
  | comment c =>
    simp only [mergedStep, Except.ok.injEq] at h
    rw [← h]
    exact ⟨fun k hk => hk, fun k hk => hk⟩
  | subProgLocation p q =>
    simp only [mergedStep, Except.ok.injEq] at h
    rw [← h]
    exact ⟨fun k hk => hk, fun k hk => hk⟩
  | propagatePrecision r o =>
    simp only [mergedStep, Except.ok.injEq] at h
    rw [← h]
    exact ⟨fun k hk => hk, fun k hk => hk⟩
  | statePruned f t =>
    simp only [mergedStep, Except.ok.injEq] at h
    rw [← h]
    exact ⟨fun k hk => hk, fun k hk => hk⟩
  | backTrackingHeader l f =>
    simp only [mergedStep, Except.ok.injEq] at h
    rw [← h]
    exact ⟨fun k hk => hk, fun k hk => hk⟩
  | backTrackInstruction r st instr =>
    simp only [mergedStep, Except.ok.injEq] at h
    rw [← h]
    exact ⟨fun k hk => hk, fun k hk => hk⟩
  | backTrackingTrailer pm r st vs =>
    simp only [mergedStep, Except.ok.injEq] at h
    rw [← h]
    exact ⟨fun k hk => hk, fun k hk => hk⟩
  | verifierDone a b c d e f =>
    simp only [mergedStep, Except.ok.injEq] at h
    rw [← h]
    exact ⟨fun k hk => hk, fun k hk => hk⟩
  | functionCall cr ce =>
    simp only [mergedStep, Except.ok.injEq] at h
    rw [← h]
    exact ⟨fun k hk => hk, fun k hk => hk⟩

theorem mergedFold_mono (more : List VerifierStatement) :
    ∀ ms ms' : MergerState, more.foldlM mergedStep ms = .ok ms' → ∀ i : Nat,
      (∀ k, hasRegKey ((ms.states.getD i {}).registers) k = true →
            hasRegKey ((ms'.states.getD i {}).registers) k = true) ∧
      (∀ k, hasSlotKey ((ms.states.getD i {}).stack) k = true →
            hasSlotKey ((ms'.states.getD i {}).stack) k = true) := by
  induction more with
  | nil =>
    intro ms ms' h i
    simp only [List.foldlM_nil] at h
    have : ms' = ms := by
      have : (pure ms : Except String MergerState) = .ok ms := rfl
      rw [this] at h
      simpa using h.symm
    rw [this]
    exact ⟨fun k hk => hk, fun k hk => hk⟩
  | cons s rest ih =>
    intro ms ms' h i
    rw [List.foldlM_cons] at h
    cases hstep : mergedStep ms s with
    | error e =>
      rw [hstep] at h
      exact Except.noConfusion h
    | ok ms1 =>
      rw [hstep] at h
      have hrest : rest.foldlM mergedStep ms1 = .ok ms' := h
      have h1 := mergedStep_mono ms ms1 s hstep i
      have h2 := ih ms1 ms' hrest i
      exact ⟨fun k hk => h2.1 k (h1.1 k hk), fun k hk => h2.2 k (h1.2 k hk)⟩

/-- The instruction index a statement publishes at, if any. -/
def publishesAt : VerifierStatement → Option Int
  | .instruction i => some i.instructionNumber
  | .instructionState i _ => some i.instructionNumber
  | _ => none

/-- A merger statement either leaves the published array unchanged or runs
one `applyCurState` publish at its instruction number. -/
theorem mergedStep_states_shape (ms ms' : MergerState) (s : VerifierStatement)
    (h : mergedStep ms s = .ok ms') :
    ms'.states = ms.states ∨
    ∃ n : Nat, publishesAt s = some ((n : Nat) : Int) ∧
      applyCurState ms.curState ms.states ((n : Nat) : Int) = .ok ms'.states := by
  cases s
  case instruction instr =>
    simp only [mergedStep] at h
    cases happ : applyCurState ms.curState ms.states instr.instructionNumber with
    | error e => rw [happ] at h; exact absurd h (by simp [Except.map])
    | ok sOut =>
      rw [happ] at h
      simp only [Except.map, Except.ok.injEq] at h
      have hpos := applyCurState_nonneg _ _ _ _ happ
      refine Or.inr ⟨instr.instructionNumber.toNat, ?_, ?_⟩
      · simp only [publishesAt]
        congr 1
        omega
      · have hcast : ((instr.instructionNumber.toNat : Nat) : Int) = instr.instructionNumber := by
          omega
        rw [hcast, happ, ← h]
  case instructionState instr st =>
    simp only [mergedStep] at h
    cases happ : applyCurState ms.curState ms.states instr.instructionNumber with
    | error e => rw [happ] at h; exact absurd h (by simp [Except.map])
    | ok sOut =>
      rw [happ] at h
      simp only [Except.map, Except.ok.injEq] at h
      have hpos := applyCurState_nonneg _ _ _ _ happ
      refine Or.inr ⟨instr.instructionNumber.toNat, ?_, ?_⟩
      · simp only [publishesAt]
        congr 1
        omega
      · have hcast : ((instr.instructionNumber.toNat : Nat) : Int) = instr.instructionNumber := by
          omega
        rw [hcast, happ, ← h]
  all_goals
    simp only [mergedStep, Except.ok.injEq] at h
    exact Or.inl (by rw [← h])

/-- Unpublished indices of the merged array stay at the zero state. -/
theorem mergedFold_unpublished (more : List VerifierStatement) :
    ∀ ms ms' : MergerState, more.foldlM mergedStep ms = .ok ms' → ∀ i : Nat,
      (∀ s ∈ more, publishesAt s ≠ some ((i : Nat) : Int)) →
      ms'.states.getD i {} = ms.states.getD i {} := by
  induction more with
  | nil =>
    intro ms ms' h i _
    simp only [List.foldlM_nil] at h
    have hms : ms' = ms := by
      have hp : (pure ms : Except String MergerState) = .ok ms := rfl
      rw [hp] at h
      simpa using h.symm
    rw [hms]
  | cons s rest ih =>
    intro ms ms' h i hnp
    rw [List.foldlM_cons] at h
    cases hstep : mergedStep ms s with
    | error e =>
      rw [hstep] at h
      exact Except.noConfusion h
    | ok ms1 =>
      rw [hstep] at h
      have hrest : rest.foldlM mergedStep ms1 = .ok ms' := h
      have htail := ih ms1 ms' hrest i (fun t ht => hnp t (List.mem_cons_of_mem s ht))
      rw [htail]
      cases mergedStep_states_shape ms ms1 s hstep with
      | inl hsame => rw [hsame]
      | inr hpub =>
        obtain ⟨n, hn, happ⟩ := hpub
        have hne : i ≠ n := by
          intro hcontra
          exact hnp s (List.mem_cons_self s rest) (by rw [hn, hcontra])
        exact (applyCurState_spec ms.curState ms.states n ms1.states happ).2.1 i hne

/-! ## Shape inversion lemmas for the statement parsers -/

theorem parseBackTrackingHeaderLine_shape (line : Str) (st : VerifierStatement)
    (h : parseBackTrackingHeaderLine line = .ok st) : ∃ a b, st = .backTrackingHeader a b := by
  unfold parseBackTrackingHeaderLine at h
  cases hm : matchBackTrackHeaderRegex line with
  | none => rw [hm] at h; exact absurd h (by simp)
  | some p =>
    obtain ⟨d1, d2⟩ := p
    rw [hm] at h
    (try dsimp only at h)
    simp only [Except.ok.injEq] at h
    exact ⟨_, _, h.symm⟩

theorem parseStatePrunedLine_shape (line : Str) (st : VerifierStatement)
    (h : parseStatePrunedLine line = .ok st) : ∃ a b, st = .statePruned a b := by
  unfold parseStatePrunedLine at h
  cases hm : matchStatePrunedRegex line with
  | none => rw [hm] at h; exact absurd h (by simp)
  | some p =>
    obtain ⟨d1, d2⟩ := p
    rw [hm] at h
    (try dsimp only at h)
    cases d2 with
    | none => simp only [Except.ok.injEq] at h; exact ⟨_, _, h.symm⟩
    | some d => simp only [Except.ok.injEq] at h; exact ⟨_, _, h.symm⟩

theorem parseInstructionLine_shape (line : Str) :
    (∃ i, parseInstructionLine line = .instruction i) ∨
    (∃ m, parseInstructionLine line = .errorStmt m) := by
  unfold parseInstructionLine
  cases hm : matchInstructionRegex line with
  | none => exact Or.inr ⟨_, rfl⟩
  | some p =>
    obtain ⟨d, hh, asmS⟩ := p
    exact Or.inl ⟨_, rfl⟩

theorem parseInstructionStateLine_shape (line : Str) (st : VerifierStatement)
    (h : parseInstructionStateLine line = .ok st) :
    (∃ i s, st = .instructionState i s) ∨ (∃ m, st = .errorStmt m) := by
  unfold parseInstructionStateLine at h
  cases hm : matchInstructionStateRegex line with
  | none =>
    rw [hm] at h
    (try dsimp only at h)
    simp only [Except.ok.injEq] at h
    exact Or.inr ⟨_, h.symm⟩
  | some p =>
    obtain ⟨d, hh, asmS, stateS⟩ := p
    rw [hm] at h
    (try dsimp only at h)
    cases hs : parseVerifierState stateS with
    | error e => rw [hs] at h; exact absurd h (by simp)
    | ok vs =>
      rw [hs] at h
      simp only [Except.ok.injEq] at h
      exact Or.inl ⟨_, _, h.symm⟩

theorem parseRecapStateLine_shape (line : Str) (st : VerifierStatement)
    (h : parseRecapStateLine line = .ok st) :
    (∃ a s, st = .recapState a s) ∨ (∃ m, st = .errorStmt m) := by
  unfold parseRecapStateLine at h
  cases hm : matchRecapRegex line with
  | none =>
    rw [hm] at h
    (try dsimp only at h)
    simp only [Except.ok.injEq] at h
    exact Or.inr ⟨_, h.symm⟩
  | some p =>
    obtain ⟨d, stateS⟩ := p
    rw [hm] at h
    (try dsimp only at h)
    cases hs : parseVerifierState stateS with
    | error e => rw [hs] at h; exact absurd h (by simp)
    | ok vs =>
      rw [hs] at h
      simp only [Except.ok.injEq] at h
      exact Or.inl ⟨_, _, h.symm⟩

theorem parseBranchEvaluationLine_shape (line : Str) (st : VerifierStatement)
    (h : parseBranchEvaluationLine line = .ok st) : ∃ a b s, st = .branchEvaluation a b s := by
  unfold parseBranchEvaluationLine at h
  cases hm : matchBranchEvalRegex line with
  | none => rw [hm] at h; exact absurd h (by simp)
  | some p =>
    obtain ⟨d1, d2, stateS⟩ := p
    rw [hm] at h
    (try dsimp only at h)
    cases hs : parseVerifierState stateS with
    | error e => rw [hs] at h; exact absurd h (by simp)
    | ok vs =>
      rw [hs] at h
      simp only [Except.ok.injEq] at h
      exact ⟨_, _, _, h.symm⟩

theorem parseBackTrackInstructionLine_shape (line : Str) (st : VerifierStatement)
    (h : parseBackTrackInstructionLine line = .ok st) :
    ∃ r s i, st = .backTrackInstruction r s i := by
  unfold parseBackTrackInstructionLine at h
  cases hm : matchBackTrackInstRegex line with
  | none => rw [hm] at h; exact absurd h (by simp)
  | some p =>
    obtain ⟨hh, d, restS⟩ := p
    rw [hm] at h
    (try dsimp only at h)
    cases hi : parseInstructionLine restS with
    | instruction i =>
      rw [hi] at h
      simp only [Except.ok.injEq] at h
      exact ⟨_, _, _, h.symm⟩
    | unknown a => rw [hi] at h; exact absurd h (by simp)
    | errorStmt a => rw [hi] at h; exact absurd h (by simp)
    | comment a => rw [hi] at h; exact absurd h (by simp)
    | recapState a b => rw [hi] at h; exact absurd h (by simp)
    | instructionState a b => rw [hi] at h; exact absurd h (by simp)
    | subProgLocation a b => rw [hi] at h; exact absurd h (by simp)
    | propagatePrecision a b => rw [hi] at h; exact absurd h (by simp)
    | statePruned a b => rw [hi] at h; exact absurd h (by simp)
    | branchEvaluation a b c => rw [hi] at h; exact absurd h (by simp)
    | backTrackingHeader a b => rw [hi] at h; exact absurd h (by simp)
    | backTrackInstruction a b c => rw [hi] at h; exact absurd h (by simp)
    | backTrackingTrailer a b c d => rw [hi] at h; exact absurd h (by simp)
    | verifierDone a b c d e f => rw [hi] at h; exact absurd h (by simp)
    | functionCall a b => rw [hi] at h; exact absurd h (by simp)
    | returnFunctionCall a b c => rw [hi] at h; exact absurd h (by simp)

theorem parseBacktrackingTrailerLine_shape (line : Str) (st : VerifierStatement)
    (h : parseBacktrackingTrailerLine line = .ok st) :
    ∃ pm r s vs, st = .backTrackingTrailer pm r s vs := by
  unfold parseBacktrackingTrailerLine at h
  cases hm : searchMatch matchTrailerAt line with
  | none => rw [hm] at h; exact absurd h (by simp)
  | some p =>
    obtain ⟨pm, hh, d, stateS⟩ := p
    rw [hm] at h
    (try dsimp only at h)
    cases hs : parseVerifierState stateS with
    | error e => rw [hs] at h; exact absurd h (by simp)
    | ok vs =>
      rw [hs] at h
      simp only [Except.ok.injEq] at h
      exact ⟨_, _, _, _, h.symm⟩

theorem parseLoadSuccessLine_shape (line : Str) (st : VerifierStatement)
    (h : parseLoadSuccessLine line = .ok st) :
    ∃ a b c d e f, st = .verifierDone a b c d e f := by
  unfold parseLoadSuccessLine at h
  cases hm : searchMatch matchLoadSuccessAt line with
  | none => rw [hm] at h; exact absurd h (by simp)
  | some p =>
    obtain ⟨d1, d2, d3, d4, d5, d6⟩ := p
    rw [hm] at h
    (try dsimp only at h)
    simp only [Except.ok.injEq] at h
    exact ⟨_, _, _, _, _, _, h.symm⟩

theorem parseFunctionCallLines_shape (line : Str) (rest : List Str)
    (st : VerifierStatement) (n : Nat)
    (h : parseFunctionCallLines line rest = .ok (some st, n)) :
    ∃ a b, st = .functionCall a b := by
  unfold parseFunctionCallLines at h
  split at h
  · exact absurd h (by simp)
  · match rest with
    | [] => exact absurd h (by simp)
    | r1 :: rest1 =>
      simp only at h
      cases h1 : parseVerifierState r1 with
      | error e => rw [h1] at h; exact absurd h (by simp)
      | ok cr =>
        rw [h1] at h
        match rest1 with
        | [] => exact absurd h (by simp)
        | r2 :: rest2 =>
          simp only at h
          split at h
          · exact absurd h (by simp)
          · match rest2 with
            | [] => exact absurd h (by simp)
            | r3 :: rtail =>
              simp only at h
              cases h3 : parseVerifierState r3 with
              | error e => rw [h3] at h; exact absurd h (by simp)
              | ok ce =>
                rw [h3] at h
                simp only [Except.ok.injEq, Prod.mk.injEq, Option.some.injEq] at h
                exact ⟨_, _, h.1.symm⟩

theorem parseReturnFunctionCallLines_shape (line : Str) (rest : List Str)
    (st : VerifierStatement) (n : Nat)
    (h : parseReturnFunctionCallLines line rest = .ok (some st, n)) :
    ∃ a b c, st = .returnFunctionCall a b c := by
  unfold parseReturnFunctionCallLines at h
  split at h
  · exact absurd h (by simp)
  · match rest with
    | [] => exact absurd h (by simp)
    | r1 :: rest1 =>
      simp only at h
      cases h1 : parseVerifierState r1 with
      | error e => rw [h1] at h; exact absurd h (by simp)
      | ok ce =>
        rw [h1] at h
        match rest1 with
        | [] => exact absurd h (by simp)
        | r2 :: rest2 =>
          simp only at h
          cases h2 : matchReturnCallerRegex r2 with
          | none => rw [h2] at h; exact absurd h (by simp)
          | some d =>
            rw [h2] at h
            match rest2 with
            | [] => exact absurd h (by simp)
            | r3 :: rtail =>
              simp only at h
              cases h3 : parseVerifierState r3 with
              | error e => rw [h3] at h; exact absurd h (by simp)
              | ok cr =>
                rw [h3] at h
                simp only [Except.ok.injEq, Prod.mk.injEq, Option.some.injEq] at h
                exact ⟨_, _, _, h.1.symm⟩

theorem parsePropagateLine_shape (line : Str) :
    ∃ r o, parsePropagateLine line = .propagatePrecision r o := by
  simp only [parsePropagateLine]
  by_cases hc : hasPre (trimPre line (strOf "propagating ")) (strOf "r") = true
  · rw [if_pos hc]
    exact ⟨_, _, rfl⟩
  · rw [if_neg hc]
    exact ⟨_, _, rfl⟩

/-- C9 (amended): parse-then-render is the identity for exactly the
`Unknown` statements — whenever the dispatcher produces an `Unknown`, it
stores the dispatched line verbatim and its rendering returns that line
unchanged.  (Statements carrying register values do not round-trip; see the
counterexample.) -/
theorem c9_unknown_roundtrip (line : Str) (rest : List Str) (l : Str) (n : Nat)
    (h : parseStatement line rest = .ok (some (.unknown l), n)) :
    l = line ∧ verifierStatementStr (.unknown l) = line := by
  have hl : l = line := by
    unfold parseStatement at h
    by_cases hc1 : line = []
    · rw [if_pos hc1] at h
      simp only [Except.ok.injEq, Prod.mk.injEq] at h
      exact Option.noConfusion h.1
    · rw [if_neg hc1] at h
      by_cases hc2 : hasPre line (strOf ";") = true
      · rw [if_pos hc2] at h
        simp only [Except.ok.injEq, Prod.mk.injEq, Option.some.injEq] at h
        exact absurd h.1 (by simp [parseCommentLine])
      · rw [if_neg hc2] at h
        by_cases hc3 : hasPre line (strOf "func#") = true
        · rw [if_pos hc3] at h
          simp only [Except.ok.injEq, Prod.mk.injEq] at h
          obtain ⟨h1, _⟩ := h
          unfold parseSubProgLocationLine at h1
          cases hm : matchSubProgLocRegex line with
          | none => rw [hm] at h1; exact absurd h1 (by simp)
          | some p =>
            obtain ⟨d1, d2⟩ := p
            rw [hm] at h1
            simp at h1
        · rw [if_neg hc3] at h
          by_cases hc4 : hasPre line (strOf "propagating") = true
          · rw [if_pos hc4] at h
            simp only [Except.ok.injEq, Prod.mk.injEq, Option.some.injEq] at h
            obtain ⟨h1, _⟩ := h
            obtain ⟨r, o, hp⟩ := parsePropagateLine_shape line
            rw [hp] at h1
            exact absurd h1 (by simp)
          · rw [if_neg hc4] at h
            by_cases hc5 : hasPre line (strOf "last_idx") = true
            · rw [if_pos hc5] at h
              cases hb : parseBackTrackingHeaderLine line with
              | error e => rw [hb] at h; exact absurd h (by simp [Except.map])
              | ok s =>
                rw [hb] at h
                simp only [Except.map, Except.ok.injEq, Prod.mk.injEq, Option.some.injEq] at h
                obtain ⟨a, b, rfl⟩ := parseBackTrackingHeaderLine_shape line s hb
                simp at h
            · rw [if_neg hc5] at h
              by_cases hc6 : hasPre line (strOf "caller") = true
              · rw [if_pos hc6] at h
                obtain ⟨a, b, hfc⟩ := parseFunctionCallLines_shape line rest _ n h
                exact absurd hfc (by simp)
              · rw [if_neg hc6] at h
                by_cases hc7 : hasPre line (strOf "returning from callee") = true
                · rw [if_pos hc7] at h
                  obtain ⟨a, b, c, hfc⟩ := parseReturnFunctionCallLines_shape line rest _ n h
                  exact absurd hfc (by simp)
                · rw [if_neg hc7] at h
                  by_cases hc8 : (matchStatePrunedRegex line).isSome = true
                  · rw [if_pos hc8] at h
                    cases hb : parseStatePrunedLine line with
                    | error e => rw [hb] at h; exact absurd h (by simp [Except.map])
                    | ok s =>
                      rw [hb] at h
                      simp only [Except.map, Except.ok.injEq, Prod.mk.injEq, Option.some.injEq] at h
                      obtain ⟨a, b, rfl⟩ := parseStatePrunedLine_shape line s hb
                      simp at h
                  · rw [if_neg hc8] at h
                    by_cases hc9 : (matchInstructionStateRegex line).isSome = true
                    · rw [if_pos hc9] at h
                      cases hb : parseInstructionStateLine line with
                      | error e => rw [hb] at h; exact absurd h (by simp [Except.map])
                      | ok s =>
                        rw [hb] at h
                        simp only [Except.map, Except.ok.injEq, Prod.mk.injEq, Option.some.injEq] at h
                        rcases parseInstructionStateLine_shape line s hb with ⟨a, b, rfl⟩ | ⟨m, rfl⟩ <;>
                          simp at h
                    · rw [if_neg hc9] at h
                      by_cases hc10 : (matchInstructionRegex line).isSome = true
                      · rw [if_pos hc10] at h
                        simp only [Except.ok.injEq, Prod.mk.injEq, Option.some.injEq] at h
                        obtain ⟨h1, _⟩ := h
                        rcases parseInstructionLine_shape line with ⟨it, hi⟩ | ⟨m, hi⟩ <;>
                          (rw [hi] at h1; simp at h1)
                      · rw [if_neg hc10] at h
                        by_cases hc11 : (matchRecapRegex line).isSome = true
                        · rw [if_pos hc11] at h
                          cases hb : parseRecapStateLine line with
                          | error e => rw [hb] at h; exact absurd h (by simp [Except.map])
                          | ok s =>
                            rw [hb] at h
                            simp only [Except.map, Except.ok.injEq, Prod.mk.injEq, Option.some.injEq] at h
                            rcases parseRecapStateLine_shape line s hb with ⟨a, b, rfl⟩ | ⟨m, rfl⟩ <;>
                              simp at h
                        · rw [if_neg hc11] at h
                          by_cases hc12 : (matchBranchEvalRegex line).isSome = true
                          · rw [if_pos hc12] at h
                            cases hb : parseBranchEvaluationLine line with
                            | error e => rw [hb] at h; exact absurd h (by simp [Except.map])
                            | ok s =>
                              rw [hb] at h
                              simp only [Except.map, Except.ok.injEq, Prod.mk.injEq, Option.some.injEq] at h
                              obtain ⟨a, b, c, rfl⟩ := parseBranchEvaluationLine_shape line s hb
                              simp at h
                          · rw [if_neg hc12] at h
                            by_cases hc13 : (matchBackTrackInstRegex line).isSome = true
                            · rw [if_pos hc13] at h
                              cases hb : parseBackTrackInstructionLine line with
                              | error e => rw [hb] at h; exact absurd h (by simp [Except.map])
                              | ok s =>
                                rw [hb] at h
                                simp only [Except.map, Except.ok.injEq, Prod.mk.injEq, Option.some.injEq] at h
                                obtain ⟨a, b, c, rfl⟩ := parseBackTrackInstructionLine_shape line s hb
                                simp at h
                            · rw [if_neg hc13] at h
                              by_cases hc14 : (searchMatch matchTrailerAt line).isSome = true
                              · rw [if_pos hc14] at h
                                cases hb : parseBacktrackingTrailerLine line with
                                | error e => rw [hb] at h; exact absurd h (by simp [Except.map])
                                | ok s =>
                                  rw [hb] at h
                                  simp only [Except.map, Except.ok.injEq, Prod.mk.injEq, Option.some.injEq] at h
                                  obtain ⟨a, b, c, d, rfl⟩ := parseBacktrackingTrailerLine_shape line s hb
                                  simp at h
                              · rw [if_neg hc14] at h
                                by_cases hc15 : (searchMatch matchLoadSuccessAt line).isSome = true
                                · rw [if_pos hc15] at h
                                  cases hb : parseLoadSuccessLine line with
                                  | error e => rw [hb] at h; exact absurd h (by simp [Except.map])
                                  | ok s =>
                                    rw [hb] at h
                                    simp only [Except.map, Except.ok.injEq, Prod.mk.injEq, Option.some.injEq] at h
                                    obtain ⟨a, b, c, d, e, f, rfl⟩ := parseLoadSuccessLine_shape line s hb
                                    simp at h
                                · rw [if_neg hc15] at h
                                  simp only [Except.ok.injEq, Prod.mk.injEq, Option.some.injEq,
                                    VerifierStatement.unknown.injEq] at h
                                  exact h.1.symm
  exact ⟨hl, by rw [hl]; rfl⟩

theorem c9_unknown_roundtrip_witness :
    strOf "total garbage" = strOf "total garbage" ∧
    verifierStatementStr (.unknown (strOf "total garbage")) = strOf "total garbage" :=
  c9_unknown_roundtrip (strOf "total garbage") [] (strOf "total garbage") 0 (by rfl)

/-! ## Claim theorems: concrete evaluations -/

/-- C1 (code evaluation at the failing input): the trial-load retry loop of
`InstrumentAndLoadCollection` has no `break` after a successful attempt, so
with a loader that succeeds on every attempt it still performs all five trial
loads (first conjunct), refuting "after a successful attempt no further trial
loads are performed".  The parts of the claim the code does satisfy are also
evaluated: five ENOSPC failures quadruple the 1 MiB buffer each time (second
conjunct), and any other error returns at once after a single load (third
conjunct). -/
theorem c1_trial_load_eval :
    trialLoadLoop (fun _ _ => .success) = (5, 1 <<< 20, some .success) ∧
    trialLoadLoop (fun _ _ => .enospc) = (5, 1 <<< 30, some .enospc) ∧
    trialLoadLoop (fun _ _ => .otherError) = (1, 1 <<< 20, some .otherError) := by
  refine ⟨by rfl, by rfl, by rfl⟩

/-- C4 (code evaluation at the failing inputs): `ParseVerifierLog` aborts.
The line `regs=4 stack=0 before x` reaches the unchecked type assertion
`instruction.(*Instruction)` in `parseBackTrackInstruction` with an `Error`
statement and panics; a `returning from callee:` block whose third line does
not match `to caller at N:` panics on `match[1]` of a nil submatch slice in
`parseReturnFunctionCall`. -/
theorem c4_parse_panics :
    parseVerifierLog (strOf "regs=4 stack=0 before x") =
      .error "parseBackTrackInstruction: interface conversion to Instruction failed" ∧
    parseVerifierLog (strOf "returning from callee:\n R0=invP1\ngarbage\n R0=invP1") =
      .error "parseReturnFunctionCall: index out of range on nil match" := by
  refine ⟨by rfl, by rfl⟩

/-- C8 (code evaluation at the failing input): parsing the seed line yields
one `InstructionState` with instruction 36, opcode `0x69`, and exactly the
two written registers `R1` and `R7`; `R7` carries `map_value`, `ks=4`,
`vs=100` as the claim states, but `R1` parses with `UMaxValue = 0` (the
`umax_value` key matches no case of `parseRegisterValue`, which only knows
`umax`) and `VarOff = (0, 0)` (base-16 `ParseInt` rejects the `0x` prefix and
the leading space, and the mask half is assigned to `Value` anyway) — not
the `umax = 65535`, `value = 0xffff` the claim and the repository test
expect. -/
theorem c8_parse_seed_line :
    parseVerifierLog (strOf "36: (69) r1 = *(u16 *)(r7 +46)        ; R1_w=inv(id=0,umax_value=65535,var_off=(0x0; 0xffff)) R7_w=map_value(id=0,off=0,ks=4,vs=100,imm=0)") =
      .ok [ .instructionState
              { instructionNumber := 36, opcode := 0x69
              , assembly := strOf " r1 = *(u16 *)(r7 +46)        " }
              { registers :=
                  [ { register := 1, liveness := .written
                    , value := { type := RegTypeScalarValue } }
                  , { register := 7, liveness := .written
                    , value := { type := RegTypeMapValue, keySize := 4, valueSize := 100 } } ] } ] := by
  rfl

/-- The two programs of the C2 counterexample: an unconditional jump over a
straight-line block, and a byte-code function call. -/
def c2ProgJa : List Instruction :=
  [ { kind := .ja, offset := 1 }
  , { kind := .movImm, dst := 1, constant := 2 }
  , { kind := .exitInst } ]

def c2ProgCall : List Instruction :=
  [ { kind := .funcCall, reference := strOf "fn" }
  , { kind := .exitInst }
  , { kind := .movImm, dst := 0, constant := 0, symbol := strOf "fn" }
  , { kind := .exitInst } ]

/-- C2 counterexample: the claim is false on two counts.  The block ending in
the unconditional jump keeps a fall-through successor (`NoBranch` is the
following block, set because the op is merely "not Exit"), and a block ending
in a byte-code function call gets a branch successor (the linking loop only
skips `InvalidJumpOp` and `Exit`, so the call's reference resolves to the
callee's block). -/
theorem c2_counterexample :
    (programBlocks c2ProgJa).map
        (fun bs => bs.map (fun b => ((b.block.getLastD default).kind.jumpOp, b.noBranch, b.branch)))
      = .ok [(.ja, some 1, some 2), (.invalid, some 2, none), (.exit, none, none)] ∧
    (programBlocks c2ProgCall).map
        (fun bs => bs.map (fun b => ((b.block.getLastD default).kind.jumpOp, b.noBranch, b.branch)))
      = .ok [(.call, some 1, some 2), (.exit, none, none), (.exit, none, none)] := by
  refine ⟨by rfl, by rfl⟩

/-- The statement list of the C3 counterexample: register 1 is published at
instruction 0 with scalar value 1, the current state then changes to scalar
value 2 via a branch evaluation, and index 0 is published again. -/
def c3Stmts : List VerifierStatement :=
  [ .instructionState { instructionNumber := 0 }
      { registers := [{ register := 1, value := { type := RegTypeScalarValue
                                                 , varOff := { value := 1 } } }] }
  , .instruction { instructionNumber := 0 }
  , .branchEvaluation 0 0
      { registers := [{ register := 1, value := { type := RegTypeScalarValue
                                                 , varOff := { value := 2 } } }] }
  , .instruction { instructionNumber := 0 } ]

/-- C3 counterexample: after the final publish, the entry for register 1 at
index 0 still carries the first snapshot's value 1, not the later snapshot's
value 2 — the publish loop writes the existing element back onto itself, so
a key present on both sides keeps the earlier value, refuting "the later
snapshot's value overwrites the earlier one". -/
theorem c3_counterexample :
    (mergedStmts c3Stmts).map (fun ms => ms.states) =
      .ok [{ registers := [{ register := 1
                           , value := { type := RegTypeScalarValue
                                      , varOff := { value := 1 } } }] }] := by
  rfl

/-- The one-program collection of the C5 counterexample: a single block whose
first instruction index is 0 while the verifier log is empty, so the merged
array has length 0. -/
def c5Coll : CollectionSpec :=
  { programs := [(strOf "p", { instructions := [{ kind := .exitInst }] })] }

def c5Env : LoadEnv := { trial := fun _ _ => .success, logs := fun _ => [] }

/-- C5 counterexample: with an empty verifier log the merged array is empty,
and reading the merged state at the first block's instruction index 0 is an
out-of-bounds slice access — `InstrumentAndLoadCollection` panics instead of
treating the missing index as an empty state, refuting "the read never
aborts". -/
theorem c5_counterexample :
    instrumentAndLoadCollection c5Coll c5Env = .error "runtime error: index out of range" := by
  rfl

/-- C3 (amended): processing an `Instruction` or `InstructionState`
statement with instruction number `i` publishes the current state into the
output array at index `i`: the array grows on demand to at least `i + 1`
elements and the register and stack-slot key sets at index `i` become the
union of what had accumulated there and the current state's keys — but when
a key is present on both sides, the previously published entry is kept (the
publish loop writes the existing element back onto itself); only keys absent
from index `i` receive the current state's value. -/
theorem c3_publish_keeps_earlier_values (ms : MergerState) (instr : LogInstruction)
    (st : VerifierState) (n : Nat) (hn : instr.instructionNumber = ((n : Nat) : Int))
    (ms' : MergerState)
    (h : mergedStep ms (.instruction instr) = .ok ms' ∨
         mergedStep ms (.instructionState instr st) = .ok ms') :
    publishOutcome ms.curState ms.states n ms'.states := by
  have happ : applyCurState ms.curState ms.states ((n : Nat) : Int) = .ok ms'.states := by
    cases h with
    | inl h =>
      simp only [mergedStep, hn] at h
      cases happ2 : applyCurState ms.curState ms.states ((n : Nat) : Int) with
      | error e => rw [happ2] at h; exact absurd h (by simp [Except.map])
      | ok s =>
        rw [happ2] at h
        simp only [Except.map, Except.ok.injEq] at h
        rw [show ms'.states = s from by rw [← h]]
    | inr h =>
      simp only [mergedStep, hn] at h
      cases happ2 : applyCurState ms.curState ms.states ((n : Nat) : Int) with
      | error e => rw [happ2] at h; exact absurd h (by simp [Except.map])
      | ok s =>
        rw [happ2] at h
        simp only [Except.map, Except.ok.injEq] at h
        rw [show ms'.states = s from by rw [← h]]
  exact applyCurState_spec ms.curState ms.states n ms'.states happ

theorem c3_publish_keeps_earlier_values_witness :
    publishOutcome ({} : VerifierState) ([] : List VerifierState) 0 [({} : VerifierState)] :=
  c3_publish_keeps_earlier_values { curState := {}, states := [] }
    { instructionNumber := 0 } {} 0 rfl { curState := {}, states := [{}] } (Or.inl rfl)

/-- The monotonicity relation of the merger between two fold states, at one
instruction index: every (register, stack-slot) key already published is
still published. -/
abbrev keysMonotone (a b : MergerState) (i : Nat) : Prop :=
  (∀ k, hasRegKey ((a.states.getD i {}).registers) k = true →
        hasRegKey ((b.states.getD i {}).registers) k = true) ∧
  (∀ k, hasSlotKey ((a.states.getD i {}).stack) k = true →
        hasSlotKey ((b.states.getD i {}).stack) k = true)

/-- C7: merger monotonicity.  For any instruction index, the set of
(register, stack-slot) keys recorded by `MergedPerInstruction` only grows as
further statements are consumed; no key is ever removed (`BranchEvaluation`
and `ReturnFunctionCall` replace only the working state, never the published
array). -/
theorem c7_merger_monotonic (stmts more : List VerifierStatement) (ms ms' : MergerState)
    (h1 : mergedStmts stmts = .ok ms) (h2 : mergedStmts (stmts ++ more) = .ok ms')
    (i : Nat) : keysMonotone ms ms' i := by
  rw [mergedStmts, List.foldlM_append] at h2
  rw [mergedStmts] at h1
  rw [h1] at h2
  have hbind : ((Except.ok ms : Except String MergerState) >>= fun b' =>
      more.foldlM mergedStep b') = more.foldlM mergedStep ms := rfl
  rw [hbind] at h2
  exact mergedFold_mono more ms ms' h2 i

theorem c7_merger_monotonic_witness :
    keysMonotone
      { curState := { registers := [{ register := 1 }] }
      , states := [{ registers := [{ register := 1 }] }] }
      { curState := {}
      , states := [{ registers := [{ register := 1 }] }] } 0 :=
  c7_merger_monotonic
    [ .recapState 0 { registers := [{ register := 1 }] }
    , .instruction { instructionNumber := 0 } ]
    [.branchEvaluation 0 0 {}] _ _ rfl rfl 0

/-- C5 (amended): the engine's merged-state read (`mergedStates[instn]`)
panics with an index-out-of-range error whenever the block's first
instruction index is at or past the merged array's length; an index inside
the array that the verifier log never published holds the zero state, which
the engine's register scan treats as "no registers used". -/
theorem c5_read_aborts_or_zero :
    (∀ (mergedStates : List VerifierState) (instn : Nat), mergedStates.length ≤ instn →
        readMergedState mergedStates instn = .error "runtime error: index out of range") ∧
    (∀ (stmts : List VerifierStatement) (ms : MergerState) (i : Nat),
        mergedStmts stmts = .ok ms →
        (∀ s ∈ stmts, publishesAt s ≠ some ((i : Nat) : Int)) →
        i < ms.states.length →
        readMergedState ms.states i = .ok {} ∧
        computeUsedRegs (({} : VerifierState)).registers = .ok []) := by
  constructor
  · intro states instn h
    rw [readMergedState]
    rw [List.get?_eq_none.mpr h]
  · intro stmts ms i h hnp hlen
    have hzero : ms.states.getD i {} = ({} : MergerState).states.getD i {} :=
      mergedFold_unpublished stmts {} ms h i hnp
    have hzero2 : ms.states.getD i {} = ({} : VerifierState) := by
      rw [hzero]
      rfl
    refine ⟨?_, rfl⟩
    rw [readMergedState]
    cases hget : ms.states.get? i with
    | none =>
      rw [List.get?_eq_none] at hget
      omega
    | some v =>
      have : v = ({} : VerifierState) := by
        have : ms.states.getD i {} = v := by
          rw [List.getD, hget]
          rfl
        rw [← this, hzero2]
      rw [this]

theorem c5_read_aborts_or_zero_witness :
    readMergedState ([] : List VerifierState) 0 = .error "runtime error: index out of range" ∧
    (readMergedState [({} : VerifierState), { registers := [{ register := 1 }] }] 0
        = .ok {} ∧
      computeUsedRegs (({} : VerifierState)).registers = .ok []) := by
  refine ⟨c5_read_aborts_or_zero.1 [] 0 (by decide), ?_⟩
  exact c5_read_aborts_or_zero.2
    [ .branchEvaluation 0 0 { registers := [{ register := 1 }] }
    , .instruction { instructionNumber := 1 } ]
    { curState := { registers := [{ register := 1 }] }
    , states := [{}, { registers := [{ register := 1 }] }] } 0
    rfl (by decide) (by decide)

/-- C9 counterexample: the statement parsed from `0: (b7) r6 = 1; R6_w=invP1`
renders as `0: (b7) r6 = 1; R6_w=P1` — the scalar value parsed from the
legacy `inv` prefix re-renders in the bare new-kernel format — which differs
from the original line by more than whitespace. -/
theorem c9_counterexample :
    match parseVerifierLog (strOf "0: (b7) r6 = 1; R6_w=invP1") with
    | .ok [st] =>
      verifierStatementStr st = strOf "0: (b7) r6 = 1; R6_w=P1" ∧
      normalizeWs (verifierStatementStr st) ≠
        normalizeWs (strOf "0: (b7) r6 = 1; R6_w=invP1")
    | _ => False := by
  exact ⟨by rfl, by decide⟩

/-! ### C2: successor structure of the returned blocks -/

/-- Shape of every block emitted by the construction loop: non-empty, no
branch edge yet, and the fall-through edge pointing at the next block index
exactly when the last instruction is not an `Exit`. -/
def blockWF (b : ProgBlock) : Prop :=
  b.block ≠ [] ∧ b.branch = none ∧
  b.noBranch = (if (b.block.getLastD default).kind.jumpOp = .exit then none
                else some (b.index + 1))

/-- Invariant of the block-construction fold: emitted blocks are well
formed and indexed by their list position, and the in-progress block has no
successor edges and never ends in a jump. -/
def buildInv (st : BuildSt) : Prop :=
  (∀ b ∈ st.blocks, blockWF b) ∧
  st.curBlock.noBranch = none ∧ st.curBlock.branch = none ∧
  (st.curBlock.block = [] ∨ (st.curBlock.block.getLastD default).kind.jumpOp = .invalid) ∧
  st.curBlock.index = st.blocks.length ∧
  st.blocks.map ProgBlock.index = List.range st.blocks.length

theorem buildStep_inv (st : BuildSt) (inst : Instruction) (h : buildInv st) :
    buildInv (buildStep st inst) := by
  obtain ⟨hWF, hnb, hbr, hlast, hidx, hmap⟩ := h
  unfold buildStep
  by_cases hs : inst.symbol ≠ [] ∧ st.curBlock.block ≠ []
  · rw [if_pos hs]
    have hinv : (st.curBlock.block.getLastD default).kind.jumpOp = .invalid :=
      hlast.resolve_left hs.2
    have hsymWF : blockWF { st.curBlock with noBranch := some (st.curBlock.index + 1) } := by
      refine ⟨hs.2, hbr, ?_⟩
      dsimp only
      rw [if_neg (by rw [hinv]; decide)]
    by_cases hj : inst.kind.jumpOp = .invalid
    · rw [if_pos hj]
      refine ⟨?_, rfl, rfl, ?_, ?_, ?_⟩
      · intro b hb
        rcases List.mem_append.mp hb with hb | hb
        · exact hWF b hb
        · rw [List.mem_singleton.mp hb]; exact hsymWF
      · right; simpa using hj
      · simp [hidx]
      · simp [hmap, hidx, List.range_succ]
    · rw [if_neg hj]
      refine ⟨?_, rfl, rfl, Or.inl rfl, ?_, ?_⟩
      · intro b hb
        rcases List.mem_append.mp hb with hb | hb
        · rcases List.mem_append.mp hb with hb | hb
          · exact hWF b hb
          · rw [List.mem_singleton.mp hb]; exact hsymWF
        · rw [List.mem_singleton.mp hb]
          refine ⟨by simp, rfl, ?_⟩
          simp
      · simp [hidx]
      · simp [hmap, hidx, List.range_succ]
  · rw [if_neg hs]
    by_cases hj : inst.kind.jumpOp = .invalid
    · rw [if_pos hj]
      refine ⟨hWF, hnb, hbr, ?_, hidx, hmap⟩
      right; simpa [List.getLastD_concat] using hj
    · rw [if_neg hj]
      refine ⟨?_, rfl, rfl, Or.inl rfl, ?_, ?_⟩
      · intro b hb
        rcases List.mem_append.mp hb with hb | hb
        · exact hWF b hb
        · rw [List.mem_singleton.mp hb]
          refine ⟨by simp, hbr, ?_⟩
          simp [List.getLastD_concat, hnb]
      · simp [hidx]
      · simp [hmap, hidx, List.range_succ]

theorem buildBlocks_inv (prog : List Instruction) :
    buildInv (prog.foldl buildStep {}) := by
  have hgen : ∀ st, buildInv st → buildInv (prog.foldl buildStep st) := by
    induction prog with
    | nil => intro st h; exact h
    | cons i rest ih => intro st h; exact ih _ (buildStep_inv st i h)
  refine hgen {} ⟨?_, rfl, rfl, Or.inl rfl, rfl, rfl⟩
  intro b hb
  exact absurd hb (List.not_mem_nil b)

/-- The link pass only ever writes the `branch` field. -/
theorem linkBlockFn_parts (m : List (Str × Nat)) (b : ProgBlock) :
    (linkBlockFn m b).block = b.block ∧ (linkBlockFn m b).index = b.index ∧
    (linkBlockFn m b).noBranch = b.noBranch := by
  unfold linkBlockFn
  by_cases h : (b.block.getLastD default).kind.jumpOp = .invalid ∨
      (b.block.getLastD default).kind.jumpOp = .exit
  · rw [if_pos h]; exact ⟨rfl, rfl, rfl⟩
  · rw [if_neg h]; exact ⟨rfl, rfl, rfl⟩

/-- The symbol map reads only block heads and indices, which the link pass
preserves. -/
theorem symToBlockList_linkBlocks (bs : List ProgBlock) :
    symToBlockList (linkBlocks bs) = symToBlockList bs := by
  unfold symToBlockList linkBlocks
  rw [List.foldl_map]
  refine List.foldl_ext _ _ _ ?_
  intro acc b _
  have h := linkBlockFn_parts (symToBlockList bs) b
  unfold symStep
  rw [h.1, h.2.1]

/-- The actual successor structure of a block `ProgramBlocks` returns:
non-empty; the fall-through (`NoBranch`) points at the next block unless the
last instruction is an `Exit` — so a block ending in an unconditional jump
keeps a fall-through successor; and the branch edge is the symbol-map entry
of the last instruction's reference for every jump op except
`InvalidJumpOp` and `Exit` — so a block ending in a call acquires a branch
successor whenever its callee's symbol heads a block. -/
abbrev blockSuccessors (blocks : List ProgBlock) (b : ProgBlock) : Prop :=
  b.block ≠ [] ∧
  b.noBranch = (if (b.block.getLastD default).kind.jumpOp = .exit then none
                else some (b.index + 1)) ∧
  b.branch = (if (b.block.getLastD default).kind.jumpOp = .invalid ∨
                 (b.block.getLastD default).kind.jumpOp = .exit then none
              else lookupLast (symToBlockList blocks) (b.block.getLastD default).reference)

/-- **C2** (amended).  In the block list `ProgramBlocks` returns, block
indices are the list positions, every block is non-empty, a block whose
last instruction is `Exit` has neither successor, and every other block has
a fall-through successor (the next block) — including blocks ending in an
unconditional jump, since the construction loop omits the fall-through only
for `Exit`; a block ending in a conditional or unconditional jump also has
a branch successor (its synthesized label always resolves), and a block
ending in a call has a branch successor exactly when the callee's symbol
heads a block, because the linking loop skips only `InvalidJumpOp` and
`Exit`. -/
theorem c2_block_successors (prog : List Instruction) (blocks : List ProgBlock)
    (h : programBlocks prog = .ok blocks) :
    blocks.map ProgBlock.index = List.range blocks.length ∧
    ∀ b ∈ blocks, blockSuccessors blocks b := by
  unfold programBlocks at h
  cases hl : labelJumps prog with
  | error e => rw [hl] at h; exact Except.noConfusion h
  | ok p =>
    rw [hl] at h
    simp only [Except.map] at h
    injection h with h
    subst h
    obtain ⟨hWF, -, -, -, -, hmap⟩ := buildBlocks_inv p
    constructor
    · simp only [linkBlocks, List.map_map, List.length_map, Function.comp_def]
      rw [List.map_congr_left (fun b _ => (linkBlockFn_parts (symToBlockList (buildBlocks p)) b).2.1)]
      exact hmap
    · intro b hb
      obtain ⟨b0, hb0, rfl⟩ := List.mem_map.mp hb
      obtain ⟨hne, hbr, hnbr⟩ := hWF b0 hb0
      have hparts := linkBlockFn_parts (symToBlockList (buildBlocks p)) b0
      refine ⟨?_, ?_, ?_⟩
      · rw [hparts.1]; exact hne
      · rw [hparts.1, hparts.2.1, hparts.2.2]; exact hnbr
      · rw [hparts.1]
        by_cases hop : (b0.block.getLastD default).kind.jumpOp = .invalid ∨
            (b0.block.getLastD default).kind.jumpOp = .exit
        · rw [if_pos hop]
          unfold linkBlockFn
          rw [if_pos hop]
          exact hbr
        · rw [if_neg hop]
          unfold linkBlockFn
          rw [if_neg hop]
          dsimp only
          rw [symToBlockList_linkBlocks]

/-- The blocks computed for the C2 jump program. -/
def c2BlocksJa : List ProgBlock := (programBlocks c2ProgJa).toOption.getD []

/-- Witness: the amended successor property evaluated on the concrete
three-block jump program. -/
theorem c2_block_successors_witness :
    programBlocks c2ProgJa = .ok c2BlocksJa ∧
    (c2BlocksJa.map ProgBlock.index = List.range c2BlocksJa.length ∧
     ∀ b ∈ c2BlocksJa, blockSuccessors c2BlocksJa b) :=
  ⟨by rfl, c2_block_successors c2ProgJa c2BlocksJa (by rfl)⟩


/-! ### C6: the jump-labelling pass -/

theorem getD_set_ne {α : Type} (l : List α) (i j : Nat) (a d : α)
    (h : i ≠ j) : (l.set i a).getD j d = l.getD j d := by
  simp only [List.getD_eq_getElem?_getD]
  rw [List.getElem?_set_ne h]

theorem getD_set_self {α : Type} (l : List α) (i : Nat) (a d : α)
    (h : i < l.length) : (l.set i a).getD i d = a := by
  simp only [List.getD_eq_getElem?_getD]
  rw [List.getElem?_set_self h]
  rfl

theorem rawOffsets_go_length (prog : List Instruction) :
    ∀ (acc : List Nat) (o : Nat),
      ((prog.foldl
          (fun acc i => (acc.1 ++ [acc.2], acc.2 + (if i.kind.isDWordLoad then 2 else 1)))
          (acc, o)).1).length = acc.length + prog.length := by
  induction prog with
  | nil => intro acc o; simp
  | cons i rest ih =>
    intro acc o
    simp only [List.foldl_cons]
    rw [ih]
    simp [List.length_append]
    omega

/-- The raw-offset list has one entry per instruction. -/
theorem rawOffsets_length (prog : List Instruction) :
    (rawOffsets prog).length = prog.length := by
  have := rawOffsets_go_length prog [] 0
  simpa [rawOffsets] using this

theorem offToIdx_lt (prog : List Instruction) (t : Int) (j : Nat)
    (h : offToIdx prog t = some j) : j < prog.length := by
  unfold offToIdx at h
  obtain ⟨hlt, -, -⟩ := List.findIdx?_eq_some_iff_getElem.mp h
  rwa [rawOffsets_length] at hlt

/-- A resolved target index determines the raw target offset. -/
theorem offToIdx_raw (prog : List Instruction) (t : Int) (j : Nat)
    (h : offToIdx prog t = some j) : (((rawOffsets prog).getD j 0 : Nat) : Int) = t := by
  unfold offToIdx at h
  obtain ⟨hlt, hp, -⟩ := List.findIdx?_eq_some_iff_getElem.mp h
  rw [List.getD_eq_getElem _ _ hlt]
  exact eq_of_beq hp

/-- Two jumps resolved to the same target index have the same raw target
offset (raw offsets are strictly increasing, so the lookup is unique). -/
theorem offToIdx_inj (prog : List Instruction) (t1 t2 : Int) (j : Nat)
    (h1 : offToIdx prog t1 = some j) (h2 : offToIdx prog t2 = some j) : t1 = t2 := by
  rw [← offToIdx_raw prog t1 j h1, offToIdx_raw prog t2 j h2]

/-- The raw target offset of the jump at list position `idx`: its own raw
offset plus its numeric offset plus one. -/
def jumpTarget (prog : List Instruction) (idx : Nat) : Int :=
  (((rawOffsets prog).getD idx 0 : Nat) : Int) + (prog.getD idx default).offset + 1

/-- Position `idx` of the original program holds a jump the labelling pass
rewrites: any jump op except `InvalidJumpOp`, `Call` and `Exit`. -/
abbrev labeledJump (prog : List Instruction) (idx : Nat) : Prop :=
  ¬((prog.getD idx default).kind.jumpOp = .invalid ∨
    (prog.getD idx default).kind.jumpOp = .call ∨
    (prog.getD idx default).kind.jumpOp = .exit)

/-- What the labelling pass establishes for the jump at `idx`: the jump now
carries offset `-1` and the synthesized label as its reference, and the
instruction at the resolved target index carries the label as its symbol. -/
abbrev jumpRewritten (prog out : List Instruction) (idx : Nat) : Prop :=
  (out.getD idx default).offset = -1 ∧
  (out.getD idx default).reference = jLabel (jumpTarget prog idx) ∧
  ∃ tIdx, offToIdx prog (jumpTarget prog idx) = some tIdx ∧
    (out.getD tIdx default).symbol = jLabel (jumpTarget prog idx)

/-- Invariant after the labelling pass has processed indices below `s`:
lengths and opcodes are untouched, offsets at or above `s` are original, and
every already-processed jump is rewritten. -/
def ljInv (prog cur : List Instruction) (s : Nat) : Prop :=
  cur.length = prog.length ∧
  (∀ i, (cur.getD i default).kind = (prog.getD i default).kind) ∧
  (∀ i, s ≤ i → (cur.getD i default).offset = (prog.getD i default).offset) ∧
  (∀ i, i < s → labeledJump prog i → jumpRewritten prog cur i)

theorem labelJumpStep_inv (prog cur cur1 : List Instruction) (s : Nat)
    (hs : s < prog.length)
    (h : labelJumpStep prog cur s = .ok cur1)
    (hinv : ljInv prog cur s) : ljInv prog cur1 (s + 1) := by
  obtain ⟨hlen, hkind, hoff, hdone⟩ := hinv
  simp only [labelJumpStep] at h
  by_cases hop : (cur.getD s default).kind.jumpOp = .invalid ∨
      (cur.getD s default).kind.jumpOp = .call ∨
      (cur.getD s default).kind.jumpOp = .exit
  · rw [if_pos hop] at h
    injection h with h
    subst h
    refine ⟨hlen, hkind, fun i hi => hoff i (by omega), ?_⟩
    intro i hi hj
    rcases Nat.lt_succ_iff_lt_or_eq.mp hi with hi | hi
    · exact hdone i hi hj
    · subst hi
      rw [hkind i] at hop
      exact absurd hop hj
  · rw [if_neg hop] at h
    cases hm : offToIdx prog
        ((((rawOffsets prog).getD s 0 : Nat) : Int) + (cur.getD s default).offset + 1) with
    | none => rw [hm] at h; exact Except.noConfusion h
    | some tIdx =>
      rw [hm] at h
      (try dsimp only at h)
      injection h with h
      subst h
      have hteq : ((((rawOffsets prog).getD s 0 : Nat) : Int)
          + (cur.getD s default).offset + 1) = jumpTarget prog s := by
        unfold jumpTarget
        rw [hoff s (Nat.le_refl s)]
      have hslen : s < cur.length := by omega
      have htlen : tIdx < cur.length := by
        have := offToIdx_lt prog _ tIdx hm
        omega
      refine ⟨?_, ?_, ?_, ?_⟩
      · simp [List.length_set, hlen]
      · intro i
        by_cases his : i = s
        · subst his
          rw [getD_set_self _ _ _ _ (by simp [List.length_set]; omega)]
          by_cases hts : tIdx = i
          · subst hts
            rw [getD_set_self _ _ _ _ htlen]
            exact hkind tIdx
          · rw [getD_set_ne _ _ _ _ _ hts]
            exact hkind i
        · rw [getD_set_ne _ _ _ _ _ (fun hc => his hc.symm)]
          by_cases hts : tIdx = i
          · subst hts
            rw [getD_set_self _ _ _ _ htlen]
            exact hkind tIdx
          · rw [getD_set_ne _ _ _ _ _ hts]
            exact hkind i
      · intro i hi
        have his : ¬(s = i) := by omega
        rw [getD_set_ne _ _ _ _ _ his]
        by_cases hts : tIdx = i
        · subst hts
          rw [getD_set_self _ _ _ _ htlen]
          exact hoff tIdx (by omega)
        · rw [getD_set_ne _ _ _ _ _ hts]
          exact hoff i (by omega)
      · intro i hi hj
        rcases Nat.lt_succ_iff_lt_or_eq.mp hi with hi | hi
        · obtain ⟨ho, hr, tIdxI, hmi, hsy⟩ := hdone i hi hj
          have his : ¬(s = i) := by omega
          refine ⟨?_, ?_, tIdxI, hmi, ?_⟩
          · rw [getD_set_ne _ _ _ _ _ his]
            by_cases hts : tIdx = i
            · subst hts
              rw [getD_set_self _ _ _ _ htlen]
              exact ho
            · rw [getD_set_ne _ _ _ _ _ hts]
              exact ho
          · rw [getD_set_ne _ _ _ _ _ his]
            by_cases hts : tIdx = i
            · subst hts
              rw [getD_set_self _ _ _ _ htlen]
              exact hr
            · rw [getD_set_ne _ _ _ _ _ hts]
              exact hr
          · by_cases h1 : s = tIdxI
            · subst h1
              rw [getD_set_self _ _ _ _ (by simp [List.length_set]; omega)]
              by_cases hts : tIdx = s
              · subst hts
                rw [getD_set_self _ _ _ _ htlen]
                have : ((((rawOffsets prog).getD tIdx 0 : Nat) : Int)
                    + (cur.getD tIdx default).offset + 1) = jumpTarget prog i := by
                  refine offToIdx_inj prog _ _ tIdx hm ?_
                  exact hmi
                rw [this]
              · rw [getD_set_ne _ _ _ _ _ hts]
                exact hsy
            · rw [getD_set_ne _ _ _ _ _ h1]
              by_cases hts : tIdx = tIdxI
              · subst hts
                rw [getD_set_self _ _ _ _ htlen]
                have : ((((rawOffsets prog).getD s 0 : Nat) : Int)
                    + (cur.getD s default).offset + 1) = jumpTarget prog i := by
                  refine offToIdx_inj prog _ _ tIdx hm ?_
                  exact hmi
                rw [this]
              · rw [getD_set_ne _ _ _ _ _ hts]
                exact hsy
        · subst hi
          refine ⟨?_, ?_, tIdx, ?_, ?_⟩
          · rw [getD_set_self _ _ _ _ (by simp [List.length_set]; omega)]
          · rw [getD_set_self _ _ _ _ (by simp [List.length_set]; omega)]
            dsimp only
            rw [hteq]
          · rw [← hteq]
            exact hm
          · by_cases hts : tIdx = i
            · subst hts
              rw [getD_set_self _ _ _ _ (by simp [List.length_set]; omega)]
              rw [getD_set_self _ _ _ _ htlen]
              dsimp only
              rw [hteq]
            · rw [getD_set_ne _ _ _ _ _ (fun hc => hts hc.symm)]
              rw [getD_set_self _ _ _ _ htlen]
              dsimp only
              rw [hteq]

theorem labelJumps_inv_go (prog : List Instruction) :
    ∀ (n s : Nat) (cur out : List Instruction),
      s + n ≤ prog.length →
      (List.range' s n).foldlM (labelJumpStep prog) cur = .ok out →
      ljInv prog cur s → ljInv prog out (s + n) := by
  intro n
  induction n with
  | zero =>
    intro s cur out hb h hinv
    simp only [List.range'_zero, List.foldlM_nil, pure] at h
    injection h with h
    subst h
    simpa using hinv
  | succ n ih =>
    intro s cur out hb h hinv
    rw [List.range'_succ, List.foldlM_cons] at h
    cases hstep : labelJumpStep prog cur s with
    | error e => rw [hstep] at h; exact Except.noConfusion h
    | ok cur1 =>
      rw [hstep] at h
      have h1 := labelJumpStep_inv prog cur cur1 s (by omega) hstep hinv
      have hfin := ih (s + 1) cur1 out (by omega) h h1
      rw [show s + (n + 1) = s + 1 + n by omega]
      exact hfin

/-- The universal guarantee of the labelling pass: on success, every
conditional or unconditional jump of the original program (calls and exits
excluded) is rewritten as described by `jumpRewritten`. -/
theorem labelJumps_spec (prog out : List Instruction)
    (h : labelJumps prog = .ok out) :
    ∀ idx, idx < prog.length → labeledJump prog idx → jumpRewritten prog out idx := by
  unfold labelJumps at h
  rw [List.range_eq_range'] at h
  have hinit : ljInv prog prog 0 :=
    ⟨rfl, fun _ => rfl, fun _ _ => rfl, fun i hi _ => absurd hi (Nat.not_lt_zero i)⟩
  have hfin := labelJumps_inv_go prog prog.length 0 prog out (by omega) h hinit
  intro idx hidx hj
  exact hfin.2.2.2 idx (by omega) hj

/-- The six-instruction example program of the C6 claim:
`mov r0,1 ; jeq r0,1,+2 ; mov r1,2 ; exit ; mov r1,3 ; exit`. -/
def c6Prog : List Instruction :=
  [ { kind := .movImm, dst := 0, constant := 1 }
  , { kind := .jumpCond "jeq", dst := 0, constant := 1, offset := 2 }
  , { kind := .movImm, dst := 1, constant := 2 }
  , { kind := .exitInst }
  , { kind := .movImm, dst := 1, constant := 3 }
  , { kind := .exitInst } ]

/-- **C6** (confirmed).  Every relabelled jump targets its own raw offset
plus its numeric offset plus one, the label `j-<target>` becomes the target
instruction's symbol, and the jump is rewritten to reference the label with
numeric offset `-1`; and the six-instruction example program produces three
blocks in which the jump target carries the synthesized label `j-4`, block 0
falls through to block 1 and branches to block 2, and blocks 1 and 2 (both
ending in `Exit`) have no successors. -/
theorem c6_jump_labelling :
    (∀ prog out : List Instruction, labelJumps prog = .ok out →
      ∀ idx, idx < prog.length → labeledJump prog idx → jumpRewritten prog out idx) ∧
    (programBlocks c6Prog).map (fun bs =>
        (bs.length,
         bs.map (fun b =>
           (b.block.map (fun i => (i.symbol, i.offset, i.reference)), b.noBranch, b.branch))))
      = .ok (3,
        [ ([(([] : Str), (0 : Int), ([] : Str)), (([] : Str), (-1 : Int), strOf "j-4")],
           some 1, some 2)
        , ([(([] : Str), (0 : Int), ([] : Str)), (([] : Str), (0 : Int), ([] : Str))],
           none, none)
        , ([(strOf "j-4", (0 : Int), ([] : Str)), (([] : Str), (0 : Int), ([] : Str))],
           none, none) ]) := by
  exact ⟨labelJumps_spec, by rfl⟩

/-- The labelled form of the C6 example program. -/
def c6Labeled : List Instruction := (labelJumps c6Prog).toOption.getD []

/-- Witness: the universal conjunct applied to the example program's jump at
position 1. -/
theorem c6_jump_labelling_witness :
    labelJumps c6Prog = .ok c6Labeled ∧ 1 < c6Prog.length ∧ labeledJump c6Prog 1 ∧
    jumpRewritten c6Prog c6Labeled 1 :=
  ⟨by rfl, by decide, by decide,
   c6_jump_labelling.1 c6Prog c6Labeled (by rfl) 1 (by decide) (by decide)⟩


/-! ### C10: the final collection -/

theorem find?_overwrite_self {α : Type} (m : List (Str × α)) (k : Str) (v : α)
    (hany : m.any (fun kv => kv.1 == k) = true) :
    (m.map (fun kv => if kv.1 == k then (k, v) else kv)).find? (fun kv => kv.1 == k) =
      some (k, v) := by
  induction m with
  | nil => simp at hany
  | cons kv rest ih =>
    simp only [List.map_cons]
    by_cases hk : (kv.1 == k) = true
    · rw [if_pos hk]
      exact List.find?_cons_of_pos _ (by simp)
    · rw [if_neg hk]
      have e1 : (kv :: (rest.map (fun kv => if kv.1 == k then (k, v) else kv))).find?
          (fun kv => kv.1 == k) =
          (rest.map (fun kv => if kv.1 == k then (k, v) else kv)).find?
            (fun kv => kv.1 == k) := List.find?_cons_of_neg _ hk
      rw [e1]
      refine ih ?_
      simp only [List.any_cons, Bool.or_eq_true] at hany
      exact hany.resolve_left hk

theorem find?_overwrite_ne {α : Type} (m : List (Str × α)) (k kq : Str) (v : α)
    (h : (k == kq) = false) :
    (m.map (fun kv => if kv.1 == k then (k, v) else kv)).find? (fun kv => kv.1 == kq) =
      m.find? (fun kv => kv.1 == kq) := by
  induction m with
  | nil => rfl
  | cons kv rest ih =>
    simp only [List.map_cons]
    by_cases hk : (kv.1 == k) = true
    · rw [if_pos hk]
      have h2 : (kv.1 == kq) = false := by rw [eq_of_beq hk]; exact h
      have e1 : (((k, v) : Str × α) :: (rest.map (fun kv => if kv.1 == k then (k, v) else kv))).find?
          (fun kv => kv.1 == kq) =
          (rest.map (fun kv => if kv.1 == k then (k, v) else kv)).find? (fun kv => kv.1 == kq) :=
        List.find?_cons_of_neg _ (by simp [h])
      have e2 : (kv :: rest).find? (fun kv => kv.1 == kq) = rest.find? (fun kv => kv.1 == kq) :=
        List.find?_cons_of_neg _ (by simp [h2])
      rw [e1, e2]
      exact ih
    · rw [if_neg hk]
      by_cases hp : (kv.1 == kq) = true
      · have e1 : (kv :: (rest.map (fun kv => if kv.1 == k then (k, v) else kv))).find?
            (fun kv => kv.1 == kq) = some kv := List.find?_cons_of_pos _ hp
        have e2 : (kv :: rest).find? (fun kv => kv.1 == kq) = some kv :=
          List.find?_cons_of_pos _ hp
        rw [e1, e2]
      · have e1 : (kv :: (rest.map (fun kv => if kv.1 == k then (k, v) else kv))).find?
            (fun kv => kv.1 == kq) =
            (rest.map (fun kv => if kv.1 == k then (k, v) else kv)).find? (fun kv => kv.1 == kq) :=
          List.find?_cons_of_neg _ hp
        have e2 : (kv :: rest).find? (fun kv => kv.1 == kq) = rest.find? (fun kv => kv.1 == kq) :=
          List.find?_cons_of_neg _ hp
        rw [e1, e2]
        exact ih

/-- Go map overwrite: looking the written key up yields the new value. -/
theorem assocLookup_upsert_self {α : Type} (m : List (Str × α)) (k : Str) (v : α) :
    assocLookup (upsertAssoc m k v) k = some v := by
  unfold upsertAssoc assocLookup
  by_cases hany : m.any (fun kv => kv.1 == k) = true
  · rw [if_pos hany, find?_overwrite_self m k v hany]
  · rw [if_neg hany, List.find?_append]
    have hnone : m.find? (fun kv => kv.1 == k) = none := by
      rw [List.find?_eq_none]
      intro kv hkv hc
      exact hany (List.any_eq_true.mpr ⟨kv, hkv, hc⟩)
    have hone : ([((k, v) : Str × α)].find? (fun kv => kv.1 == k)) = some (k, v) :=
      List.find?_cons_of_pos _ (by simp)
    rw [hnone, hone]
    rfl

/-- Go map overwrite: every other key is untouched. -/
theorem assocLookup_upsert_other {α : Type} (m : List (Str × α)) (k kq : Str) (v : α)
    (h : kq ≠ k) :
    assocLookup (upsertAssoc m k v) kq = assocLookup m kq := by
  have hb : (k == kq) = false := beq_eq_false_iff_ne.mpr (fun hc => h hc.symm)
  unfold upsertAssoc assocLookup
  by_cases hany : m.any (fun kv => kv.1 == k) = true
  · rw [if_pos hany, find?_overwrite_ne m k kq v hb]
  · rw [if_neg hany, List.find?_append]
    have hone : ([((k, v) : Str × α)].find? (fun kv => kv.1 == kq)) = none := by
      rw [List.find?_eq_none]
      intro kv hkv
      rw [List.mem_singleton.mp hkv]
      simp [hb]
    rw [hone]
    cases m.find? (fun kv => kv.1 == kq) <;> rfl

/-- Overwriting a key already present keeps the key list. -/
theorem fst_upsert_present {α : Type} (m : List (Str × α)) (k : Str) (v : α)
    (h : k ∈ m.map Prod.fst) :
    (upsertAssoc m k v).map Prod.fst = m.map Prod.fst := by
  have hany : m.any (fun kv => kv.1 == k) = true := by
    rw [List.any_eq_true]
    obtain ⟨kv, hkv, hfst⟩ := List.mem_map.mp h
    exact ⟨kv, hkv, by rw [hfst]; simp⟩
  unfold upsertAssoc
  rw [if_pos hany, List.map_map]
  refine List.map_congr_left ?_
  intro kv _
  simp only [Function.comp_apply]
  by_cases hk : (kv.1 == k) = true
  · rw [if_pos hk]
    exact (eq_of_beq hk).symm
  · rw [if_neg hk]

/-- What the writeback fold leaves in the program map, for any processed
slice whose names are distinct and present: keys unchanged, other entries
unchanged, and every processed entry overwritten with its instrumented
program and a cleared BTF. -/
theorem collFold_spec (env : LoadEnv) :
    ∀ (l ps : List (Str × ProgramSpec)) (bl : List ProgBlock) (bid : Nat)
      (out : List (Str × ProgramSpec) × List ProgBlock × Nat),
      (l.map Prod.fst).Nodup →
      (∀ e ∈ l, e.1 ∈ ps.map Prod.fst) →
      l.foldlM (collStep env) (ps, bl, bid) = .ok out →
      out.1.map Prod.fst = ps.map Prod.fst ∧
      (∀ k, k ∉ l.map Prod.fst → assocLookup out.1 k = assocLookup ps k) ∧
      (∀ e ∈ l, ∃ np ms blocks bid1 bid2,
        mergedPerInstruction (env.logs e.1) = .ok ms ∧
        instrumentProgram e.1 e.2.btf ms e.2.instructions bid1 = .ok (np, blocks, bid2) ∧
        assocLookup out.1 e.1 = some { e.2 with instructions := np, btf := none }) := by
  intro l
  induction l with
  | nil =>
    intro ps bl bid out hnd hmem h
    simp only [List.foldlM_nil, pure] at h
    injection h with h
    subst h
    exact ⟨rfl, fun k _ => rfl, fun e he => absurd he (List.not_mem_nil e)⟩
  | cons e rest ih =>
    intro ps bl bid out hnd hmem h
    rw [List.foldlM_cons] at h
    cases hstep : collStep env (ps, bl, bid) e with
    | error err => rw [hstep] at h; exact Except.noConfusion h
    | ok acc1 =>
      rw [hstep] at h
      simp only [collStep] at hstep
      cases hm : mergedPerInstruction (env.logs e.1) with
      | error err2 => rw [hm] at hstep; exact Except.noConfusion hstep
      | ok ms =>
        rw [hm] at hstep
        (try dsimp only at hstep)
        cases hip : instrumentProgram e.1 e.2.btf ms e.2.instructions bid with
        | error err3 => rw [hip] at hstep; exact Except.noConfusion hstep
        | ok trip =>
          obtain ⟨np, blocks, bid2⟩ := trip
          rw [hip] at hstep
          (try dsimp only at hstep)
          injection hstep with hstep
          subst hstep
          simp only [List.map_cons, List.nodup_cons] at hnd
          have hkey : e.1 ∈ ps.map Prod.fst := hmem e (List.mem_cons_self e rest)
          have hkeys1 : (upsertAssoc ps e.1
              { e.2 with instructions := np, btf := none }).map Prod.fst = ps.map Prod.fst :=
            fst_upsert_present ps e.1 _ hkey
          have hmem1 : ∀ e2 ∈ rest, e2.1 ∈
              (upsertAssoc ps e.1 { e.2 with instructions := np, btf := none }).map Prod.fst := by
            intro e2 he2
            rw [hkeys1]
            exact hmem e2 (List.mem_cons_of_mem e he2)
          obtain ⟨hkeys2, hunch, hdone⟩ := ih _ _ _ out hnd.2 hmem1 h
          refine ⟨by rw [hkeys2, hkeys1], ?_, ?_⟩
          · intro k hk
            simp only [List.map_cons, List.mem_cons] at hk
            push_neg at hk
            rw [hunch k hk.2, assocLookup_upsert_other _ _ _ _ hk.1]
          · intro e2 he2
            rcases List.mem_cons.mp he2 with he2 | he2
            · subst he2
              refine ⟨np, ms, blocks, bid, bid2, hm, hip, ?_⟩
              rw [hunch e2.1 hnd.1, assocLookup_upsert_self]
            · exact hdone e2 he2

/-- **C10** (confirmed).  On the path that reaches the final load, the
collection handed back — the caller's own `coll`, which the source mutates
in place (only the initial trial load runs on `coll.Copy()`) — has the same
program names, every program entry overwritten with its instrumented
instruction sequence and a nil BTF, the new map `coverbee_covermap`
inserted, and every other map entry untouched. -/
theorem c10_collection_mutation (coll : CollectionSpec) (env : LoadEnv)
    (res : CollectionSpec × List ProgBlock × Nat)
    (hnodup : (coll.programs.map Prod.fst).Nodup)
    (h : instrumentAndLoadCollection coll env = .ok res) :
    res.1.programs.map Prod.fst = coll.programs.map Prod.fst ∧
    (∀ e ∈ coll.programs, ∃ np ms blocks bid1 bid2,
      mergedPerInstruction (env.logs e.1) = .ok ms ∧
      instrumentProgram e.1 e.2.btf ms e.2.instructions bid1 = .ok (np, blocks, bid2) ∧
      assocLookup res.1.programs e.1 =
        some { e.2 with instructions := np, btf := none }) ∧
    (∃ vs, assocLookup res.1.maps (strOf "coverbee_covermap") =
      some { name := strOf "covermap", mapType := ebpfArrayType, keySize := 4
           , maxEntries := 1, valueSize := vs }) ∧
    (∀ k, k ≠ strOf "coverbee_covermap" →
      assocLookup res.1.maps k = assocLookup coll.maps k) := by
  simp only [instrumentAndLoadCollection] at h
  rcases htr : trialLoadLoop env.trial with ⟨loads0, fsz0, lastRes0⟩
  rw [htr] at h
  (try dsimp only at h)
  cases lastRes0 with
  | none => exact Except.noConfusion h
  | some lr =>
    cases lr with
    | otherError => exact Except.noConfusion h
    | enospc => exact Except.noConfusion h
    | success =>
      cases hf : coll.programs.foldlM (collStep env) (coll.programs, [], 0) with
      | error err => rw [hf] at h; exact Except.noConfusion h
      | ok folded =>
        obtain ⟨progs, bl2, bid⟩ := folded
        rw [hf] at h
        (try dsimp only at h)
        injection h with h
        subst h
        have hmem : ∀ e ∈ coll.programs, e.1 ∈ coll.programs.map Prod.fst := by
          intro e he
          exact List.mem_map.mpr ⟨e, he, rfl⟩
        obtain ⟨hkeys, -, hdone⟩ :=
          collFold_spec env coll.programs coll.programs [] 0 (progs, bl2, bid) hnodup hmem hf
        refine ⟨hkeys, hdone, ⟨2 * (bid + 1), assocLookup_upsert_self _ _ _⟩, ?_⟩
        intro k hk
        exact assocLookup_upsert_other _ _ _ _ hk

/-- The collection and environment of the C10 witness: one two-instruction
program with BTF metadata and a verifier log covering both instructions. -/
def c10Coll : CollectionSpec :=
  { programs := [(strOf "prog",
      { instructions := [ { kind := .movImm, dst := 0, constant := 0, symbol := strOf "prog" }
                        , { kind := .exitInst } ]
      , btf := some [(strOf "prog", 1)] })]
  , maps := [(strOf "other", { name := strOf "other" })] }

def c10Env : LoadEnv :=
  { trial := fun _ _ => .success
  , logs := fun _ => strOf "0: (b7) r0 = 0\n1: (95) exit" }

def c10Out : CollectionSpec × List ProgBlock × Nat :=
  (instrumentAndLoadCollection c10Coll c10Env).toOption.getD default

/-- Witness: the mutation property on the concrete one-program collection. -/
theorem c10_collection_mutation_witness :
    (c10Coll.programs.map Prod.fst).Nodup ∧
    instrumentAndLoadCollection c10Coll c10Env = .ok c10Out ∧
    (c10Out.1.programs.map Prod.fst = c10Coll.programs.map Prod.fst ∧
     (∀ e ∈ c10Coll.programs, ∃ np ms blocks bid1 bid2,
       mergedPerInstruction (c10Env.logs e.1) = .ok ms ∧
       instrumentProgram e.1 e.2.btf ms e.2.instructions bid1 = .ok (np, blocks, bid2) ∧
       assocLookup c10Out.1.programs e.1 =
         some { e.2 with instructions := np, btf := none }) ∧
     (∃ vs, assocLookup c10Out.1.maps (strOf "coverbee_covermap") =
       some { name := strOf "covermap", mapType := ebpfArrayType, keySize := 4
            , maxEntries := 1, valueSize := vs }) ∧
     (∀ k, k ≠ strOf "coverbee_covermap" →
       assocLookup c10Out.1.maps k = assocLookup c10Coll.maps k)) :=
  ⟨by decide, by rfl, c10_collection_mutation c10Coll c10Env c10Out (by decide) (by rfl)⟩


end Coverbee
